import Mathlib

set_option maxHeartbeats 1000000

/-!
Shallow embedding of `src/plugins/twitter-readonly/scraper.ts` (class
`TwitterScraper`).

Modelling conventions:
* JavaScript strings are Lean `String`s; the JS `<`, `>` comparisons on
  strings are code-unit lexicographic and are modelled by Lean's `String`
  order (`<`, `≤`).
* A JS value that may be `undefined`/`null` is modelled as an `Option`.
  JS truthiness of a string value (`if (s)`, `s || d`) is: `none` and
  `some ""` are falsy, every other string is truthy.
* The `Map<string,string>` field `lastScrapedTweets` is an insertion-ordered
  association list `List (String × Option String)`; a stored value can be
  `undefined` (`none`) because the code writes `tweet.id` which may be absent.
* The RAG knowledge store is an association list `List (String × KRec)` keyed
  by the raw id string (the code keys by `stringToUuid id`, which is injective
  on distinct id strings, so raw ids are used as keys).
* External collaborators (network client, JSON.parse of externally written
  records) are fields of `Env`: a fetched result is `Except Unit _` where
  `.error` models a thrown exception, `.ok none` models a falsy return value.
* Thrown exceptions are modelled by `Except EngineSt EngineSt`: the `.error`
  payload is the (mutated) engine state at the throw point, since in JS the
  object state survives a throw.
* Store writes are recorded in an `ops` trace (`Op.remove` / `Op.create`) so
  that claims about "zero writes" / "one delete then one create" are about
  observable store operations.
-/

/-- JS string-value truthiness: `undefined` and `""` are falsy. -/
def jsTruthy : Option String → Bool
  | none => false
  | some s => s ≠ ""

/-- JS `a || b` for an optional string `a` with default `b`. -/
def jsOrStr (a : Option String) (b : String) : String :=
  match a with
  | none => b
  | some s => if s = "" then b else s

/-- Insert a comma after every third digit, consuming a reversed digit list. -/
def commasRev : List Char → Nat → List Char
  | [], _ => []
  | c :: rest, k =>
    if k == 3 then ',' :: c :: commasRev rest 1
    else c :: commasRev rest (k + 1)

/-- JS `Number.prototype.toLocaleString()` for a natural number
(en-US grouping with commas, the Node default). -/
def toLocaleStringNat (n : Nat) : String :=
  String.mk ((commasRev (toString n).data.reverse 1).reverse)

/-- Left-pad a string with `0` up to width `w`. -/
def padZero (s : String) (w : Nat) : String :=
  String.mk (List.replicate (w - s.length) '0') ++ s

/-- Civil calendar date from a day count relative to 1970-01-01
(standard era-based algorithm, truncating integer division as in C/JS). -/
def civilFromDays (z0 : Int) : Int × Int × Int :=
  let z := z0 + 719468
  let era := (if z ≥ 0 then z else z - 146096) / 146097
  let doe := z - era * 146097
  let yoe := (doe - doe / 1460 + doe / 36524 - doe / 146096) / 365
  let y := yoe + era * 400
  let doy := doe - (365 * yoe + yoe / 4 - yoe / 100)
  let mp := (5 * doy + 2) / 153
  let d := doy - (153 * mp + 2) / 5 + 1
  let m := if mp < 10 then mp + 3 else mp - 9
  (if m ≤ 2 then y + 1 else y, m, d)

/-- Decimal rendering of a nonnegative `Int`. -/
def intDigits (i : Int) : String :=
  toString i.toNat

/-- JS `new Date(ms).toISOString()` for an epoch-millisecond count. -/
def toISOString (ms : Int) : String :=
  let days := Int.fdiv ms 86400000
  let msod := (ms - days * 86400000).toNat
  let (y, m, d) := civilFromDays days
  let yearStr :=
    if 0 ≤ y ∧ y ≤ 9999 then padZero (intDigits y) 4
    else if y < 0 then "-" ++ padZero (intDigits (-y)) 6
    else "+" ++ padZero (intDigits y) 6
  yearStr ++ "-" ++ padZero (intDigits m) 2 ++ "-" ++ padZero (intDigits d) 2 ++
    "T" ++ padZero (toString (msod / 3600000)) 2 ++
    ":" ++ padZero (toString (msod / 60000 % 60)) 2 ++
    ":" ++ padZero (toString (msod / 1000 % 60)) 2 ++
    "." ++ padZero (toString (msod % 1000)) 3 ++ "Z"

/-- One hexadecimal digit. -/
def hexDigit (n : Nat) : Char :=
  if n < 10 then Char.ofNat (48 + n) else Char.ofNat (87 + n)

/-- JSON escaping of one character, as in `JSON.stringify`. -/
def escChar (c : Char) : List Char :=
  if c = '"' then ['\\', '"']
  else if c = '\\' then ['\\', '\\']
  else if c = '\n' then ['\\', 'n']
  else if c = '\r' then ['\\', 'r']
  else if c = '\t' then ['\\', 't']
  else if c = '\x08' then ['\\', 'b']
  else if c = '\x0c' then ['\\', 'f']
  else if c.toNat < 32 then
    ['\\', 'u', '0', '0', hexDigit (c.toNat / 16), hexDigit (c.toNat % 16)]
  else [c]

/-- JSON escaping of a string, as in `JSON.stringify`. -/
def escapeJson (s : String) : String :=
  String.mk (s.data.map escChar).flatten

/-! ### Data model -/

/-- Twitter profile as consumed by `formatProfileForRAG`. -/
structure Profile where
  username : String
  name : String
  biography : String
  followersCount : Nat
  friendsCount : Nat
  tweetsCount : Nat
  mediaCount : Nat
  likesCount : Nat
  listedCount : Nat
  joined : String
  location : Option String
  website : Option String
  isVerified : Bool
  isBlueVerified : Bool
  isPrivate : Bool
  avatar : String
  banner : Option String
  pinnedTweetIds : List String
deriving DecidableEq

/-- The quoted tweet inside a retweet (`tweet.retweetedStatus`). -/
structure RTStatus where
  username : String
  text : String
  likes : Nat
  retweets : Nat
  replies : Nat
deriving DecidableEq

/-- Tweet as consumed by `formatTweetForRAG` and `scrapeData`.
The id may be absent (`undefined` in JS). -/
structure Tweet where
  id : Option String
  username : String
  text : String
  timeParsed : Option String
  timestamp : Int
  isRetweet : Bool
  retweetedStatus : Option RTStatus
  photos : List String
  videos : List String
  urls : List String
  hashtags : List String
  likes : Nat
  retweets : Nat
  replies : Nat
deriving DecidableEq

/-- One stored knowledge record: its text and the `createdAt` metadata
timestamp taken from `Date.now()`. -/
structure KRec where
  text : String
  createdAt : Nat
deriving DecidableEq

/-- Observable store operations performed through the RAG knowledge manager,
plus the lifecycle effects of `start`. -/
inductive Op where
  | remove (key : String)
  | create (key : String) (text : String)
  | clientInit
  | scheduleInitial
  | scheduleRepeating
deriving DecidableEq

/-- The mutable state of a `TwitterScraper` instance together with the store
contents, a monotone clock for `Date.now()`, and the trace of operations. -/
structure EngineSt where
  isRunning : Bool
  lastScrapedTweets : List (String × Option String)
  store : List (String × KRec)
  clock : Nat
  ops : List Op
deriving DecidableEq

/-- External collaborators: the network client, per-key create failures of the
store, and `JSON.parse` of records written by external producers. -/
structure Env where
  targets : List String
  initFail : Bool
  getUserProfile : String → Except Unit (Option Profile)
  getUserTweets : String → Except Unit (Option (List (Option Tweet)))
  createFail : String → Bool
  parseState : String → Except Unit (List (String × String))
  parseTweets : String → Except Unit (List (Option (Option String)))

/-! ### `Map` and store primitives -/

/-- JS `Map.prototype.get` distinguishingly: `some v` when the key is present
with stored value `v` (which itself may be JS `undefined`, i.e. `none`). -/
def mapGet : List (String × Option String) → String → Option (Option String)
  | [], _ => none
  | e :: rest, k => if e.1 = k then some e.2 else mapGet rest k

/-- JS `Map.prototype.has`. -/
def mapHas : List (String × Option String) → String → Bool
  | [], _ => false
  | e :: rest, k => e.1 = k || mapHas rest k

/-- JS `Map.prototype.set`: overwrite in place (insertion order kept), else
append. (A JS `Map` never holds a duplicate key, so replacing the first
occurrence is exact on every representable map.) -/
def mapSet : List (String × Option String) → String → Option String →
    List (String × Option String)
  | [], k, v => [(k, v)]
  | e :: rest, k, v => if e.1 = k then (k, v) :: rest else e :: mapSet rest k v

/-- JS `Map.prototype.get` as the scraper reads it: key-missing and
stored-`undefined` both give `undefined`. -/
def jsGet (m : List (String × Option String)) (k : String) : Option String :=
  (mapGet m k).join

/-- `ragKnowledgeManager.getKnowledge`: every record under the key, in
insertion order. -/
def storeGet : List (String × KRec) → String → List KRec
  | [], _ => []
  | e :: rest, k => if e.1 = k then e.2 :: storeGet rest k else storeGet rest k

/-- `ragKnowledgeManager.removeKnowledge`: delete the record(s) under the key. -/
def storeRemove : List (String × KRec) → String → List (String × KRec)
  | [], _ => []
  | e :: rest, k => if e.1 = k then storeRemove rest k else e :: storeRemove rest k

/-- `ragKnowledgeManager.createKnowledge`: append a new record. -/
def storeAdd (s : List (String × KRec)) (k : String) (r : KRec) : List (String × KRec) :=
  s ++ [(k, r)]

/-- The fixed well-known key of the persisted scraper state
(`private readonly stateId`). -/
def stateKey : String := "twitter-scraper-state"

/-! ### Formatters (`formatProfileForRAG`, `formatTweetForRAG`) -/

/-- The `sections` array literal of `formatProfileForRAG`; `none` models the
`null` entries produced by falsy conditionals. -/
def profileSections (p : Profile) : List (Option String) :=
  [ some ("Twitter Profile: @" ++ p.username),
    some ("Name: " ++ p.name),
    some ("Bio: " ++ p.biography),
    some "Metrics:",
    some ("- Followers: " ++ toLocaleStringNat p.followersCount),
    some ("- Following: " ++ toLocaleStringNat p.friendsCount),
    some ("- Total Tweets: " ++ toLocaleStringNat p.tweetsCount),
    some ("- Media Posts: " ++ toLocaleStringNat p.mediaCount),
    some ("- Likes Given: " ++ toLocaleStringNat p.likesCount),
    some ("- Listed In: " ++ toLocaleStringNat p.listedCount),
    some "Account Details:",
    some ("- Joined: " ++ p.joined),
    some ("- Location: " ++ jsOrStr p.location "Not specified"),
    some ("- Website: " ++ jsOrStr p.website "Not specified"),
    some "Status:",
    some ("- Verified: " ++ if p.isVerified then "Yes" else "No"),
    some ("- Twitter Blue: " ++ if p.isBlueVerified then "Yes" else "No"),
    some ("- Private Account: " ++ if p.isPrivate then "Yes" else "No"),
    some "Media:",
    some ("- Avatar: " ++ p.avatar),
    (match p.banner with
     | none => none
     | some b => if b = "" then none else some ("- Banner: " ++ b)),
    (if p.pinnedTweetIds.isEmpty then none
     else some ("Pinned Tweets: " ++ String.intercalate ", " p.pinnedTweetIds)) ]

/-- `sections.filter(Boolean)`: drop `null` entries and empty strings. -/
def jsFilterBoolean (l : List (Option String)) : List String :=
  l.filterMap (fun x =>
    match x with
    | none => none
    | some s => if s = "" then none else some s)

/-- `formatProfileForRAG` from the source: build the sections array, drop falsy
entries, join with newlines. -/
def formatProfileForRAG (p : Profile) : String :=
  String.intercalate "\n" (jsFilterBoolean (profileSections p))

/-- The `content` string of `formatTweetForRAG` before the conditional section
appends. -/
def tweetBaseContent (t : Tweet) : String :=
  let timestamp := jsOrStr t.timeParsed (toISOString (t.timestamp * 1000))
  match t.isRetweet, t.retweetedStatus with
  | true, some r =>
      "Retweet by @" ++ t.username ++ " (" ++ timestamp ++ ")\n" ++
      "Original tweet by @" ++ r.username ++ ":\n" ++ r.text ++ "\n\n" ++
      "Original Engagement: " ++ toString r.likes ++ " likes, " ++
      toString r.retweets ++ " retweets, " ++ toString r.replies ++ " replies"
  | _, _ =>
      "Tweet by @" ++ t.username ++ " (" ++ timestamp ++ ")\n" ++ t.text ++
      "\n\nEngagement: " ++ toString t.likes ++ " likes, " ++
      toString t.retweets ++ " retweets, " ++ toString t.replies ++ " replies"

/-- The `Photos:` append of `formatTweetForRAG` (present only when non-empty). -/
def photosSection (t : Tweet) : String :=
  if t.photos.isEmpty then "" else "\nPhotos: " ++ String.intercalate ", " t.photos

/-- The `Videos:` append of `formatTweetForRAG` (present only when non-empty). -/
def videosSection (t : Tweet) : String :=
  if t.videos.isEmpty then "" else "\nVideos: " ++ String.intercalate ", " t.videos

/-- The `Links:` append of `formatTweetForRAG` (present only when non-empty). -/
def urlsSection (t : Tweet) : String :=
  if t.urls.isEmpty then "" else "\nLinks: " ++ String.intercalate ", " t.urls

/-- The `Hashtags:` append of `formatTweetForRAG` (present only when
non-empty; hashtags are joined with spaces). -/
def hashtagsSection (t : Tweet) : String :=
  if t.hashtags.isEmpty then "" else "\nHashtags: " ++ String.intercalate " " t.hashtags

/-- `formatTweetForRAG` from the source: base content plus the four
conditional appends, in source order. -/
def formatTweetForRAG (t : Tweet) : String :=
  tweetBaseContent t ++ photosSection t ++ videosSection t ++ urlsSection t ++
    hashtagsSection t

/-- Unfolding equation for `formatProfileForRAG`, recorded before the
definition is made irreducible for elaboration performance. -/
theorem formatProfileForRAG_def (p : Profile) :
    formatProfileForRAG p = String.intercalate "\n" (jsFilterBoolean (profileSections p)) :=
  rfl

/-- Unfolding equation for `formatTweetForRAG`, recorded before the
definition is made irreducible for elaboration performance. -/
theorem formatTweetForRAG_def (t : Tweet) :
    formatTweetForRAG t = tweetBaseContent t ++ photosSection t ++ videosSection t ++
      urlsSection t ++ hashtagsSection t :=
  rfl

attribute [irreducible] formatProfileForRAG formatTweetForRAG toLocaleStringNat
attribute [irreducible] toISOString escapeJson tweetBaseContent

/-! ### State serialization (`saveState`'s `JSON.stringify(state, null, 2)`) -/

/-- `JSON.stringify({lastScrapedTweets: Object.fromEntries(map), lastUpdated: t},
null, 2)`: entries whose stored value is `undefined` are dropped by
`JSON.stringify`; insertion order is kept. -/
def serializeState (m : List (String × Option String)) (t : Nat) : String :=
  let es := m.filterMap (fun e => e.2.map (fun v => (e.1, v)))
  let inner :=
    if es.isEmpty then "\x7b\x7d"
    else
      "\x7b\n" ++
      String.intercalate ",\n"
        (es.map (fun e => "    \"" ++ escapeJson e.1 ++ "\": \"" ++ escapeJson e.2 ++ "\"")) ++
      "\n  \x7d"
  "\x7b\n  \"lastScrapedTweets\": " ++ inner ++ ",\n  \"lastUpdated\": " ++
    toString t ++ "\n\x7d"

attribute [irreducible] serializeState

/-! ### Store upsert, state persistence, state loading, watermark seeding -/

/-- Collapse a caught exception: the engine keeps running with the state as of
the throw point. -/
def exAbsorb (r : Except EngineSt EngineSt) : EngineSt :=
  match r with
  | .ok s => s
  | .error s => s

/-- `ragKnowledgeManager.createKnowledge` as invoked by `storeKnowledge`:
appends the record (metadata `createdAt: Date.now()`), or throws. -/
def createKnowledge (env : Env) (st : EngineSt) (key content : String) :
    Except EngineSt EngineSt :=
  if env.createFail key then .error st
  else .ok { st with
    store := storeAdd st.store key ⟨content, st.clock⟩,
    clock := st.clock + 1,
    ops := st.ops ++ [Op.create key content] }

/-- `storeKnowledge` from the source: skip when the existing record has
identical text, otherwise delete the old record (if any) and create the new
one; a store failure is rethrown with the state at the throw point. -/
def storeKnowledge (env : Env) (st : EngineSt) (key content : String) :
    Except EngineSt EngineSt :=
  let existing := storeGet st.store key
  match existing.head? with
  | some r =>
      if r.text = content then .ok st
      else
        let st1 := { st with
          store := storeRemove st.store key,
          ops := st.ops ++ [Op.remove key] }
        createKnowledge env st1 key content
  | none => createKnowledge env st key content

/-- `saveState` from the source: serialize the watermark table with
`lastUpdated: Date.now()` and upsert it under the fixed state key; any failure
is caught and logged. -/
def saveState (env : Env) (st : EngineSt) : EngineSt :=
  let t := st.clock
  let st1 := { st with clock := t + 1 }
  exAbsorb (storeKnowledge env st1 stateKey (serializeState st1.lastScrapedTweets t))

/-- `loadState` from the source: read the persisted state record, parse it and
merge its entries into the watermark map; any failure is caught and the state
treated as empty. -/
def loadState (env : Env) (st : EngineSt) : EngineSt :=
  match (storeGet st.store stateKey).head? with
  | none => st
  | some r =>
      match env.parseState r.text with
      | .error _ => st
      | .ok entries =>
          { st with lastScrapedTweets :=
              entries.foldl (fun m e => mapSet m e.1 (some e.2)) st.lastScrapedTweets }

/-- One source's body of `initializeLastScrapedTweets`: look up the stored
tweet collection, parse it, and seed the watermark from the first stored
tweet's id; any failure is caught (skipping only this source). A `none` first
element models a `null` array entry, on which `tweets[0].id` throws. -/
def seedSource (env : Env) (st : EngineSt) (u : String) : EngineSt :=
  match (storeGet st.store (u ++ "-tweets")).head? with
  | none => st
  | some r =>
      match env.parseTweets r.text with
      | .error _ => st
      | .ok l =>
          match l.head? with
          | none => st
          | some none => st
          | some (some idv) =>
              { st with lastScrapedTweets := mapSet st.lastScrapedTweets u idv }

/-- `initializeLastScrapedTweets` from the source: for every target account
not already in the watermark map, best-effort seeding from stored tweets. -/
def initializeLastScrapedTweets (env : Env) (st : EngineSt) : EngineSt :=
  env.targets.foldl
    (fun s u => if mapHas s.lastScrapedTweets u then s else seedSource env s u) st

/-! ### One pass (`scrapeData`) -/

/-- The filter callback `tweet => tweet.id > lastScrapedId`: an absent id
compares `false`; JS string `>` is the flipped lexicographic order. -/
def keepNewer (w : String) (t : Tweet) : Bool :=
  match t.id with
  | none => false
  | some i => w < i

/-- `tweets.filter(tweet => tweet.id > lastScrapedId)`: evaluating the callback
on a `null`/`undefined` element throws a `TypeError`. -/
def filterNewer (w : String) : List (Option Tweet) → Except Unit (List (Option Tweet))
  | [] => .ok []
  | none :: _ => .error ()
  | some t :: rest =>
      match filterNewer w rest with
      | .error e => .error e
      | .ok r => .ok (if keepNewer w t then some t :: r else r)

/-- The `newTweets` computation: filter only when `lastScrapedId` is truthy,
otherwise take the whole fetched sequence. -/
def newItemsE (w : Option String) (ts : List (Option Tweet)) :
    Except Unit (List (Option Tweet)) :=
  match w with
  | none => .ok ts
  | some s => if s = "" then .ok ts else filterNewer s ts

/-- One iteration of the tweet loop: the silent skip of absent items and
absent/empty ids, then the upsert; a per-item failure is caught. -/
def processTweet (env : Env) (st : EngineSt) (x : Option Tweet) : EngineSt :=
  match x with
  | none => st
  | some t =>
      match t.id with
      | none => st
      | some i =>
          if i = "" then st
          else exAbsorb (storeKnowledge env st ("tweet-" ++ i) (formatTweetForRAG t))

/-- The body of one source's block in `scrapeData`, up to (excluding) the
source-level `catch`; `.error` carries the state at the throw point. -/
def scrapeSourceBody (env : Env) (st : EngineSt) (u : String) :
    Except EngineSt EngineSt :=
  match env.getUserProfile u with
  | .error _ => .error st
  | .ok none => .error st
  | .ok (some p) =>
      match storeKnowledge env st (u ++ "-profile") (formatProfileForRAG p) with
      | .error s => .error s
      | .ok st1 =>
          match env.getUserTweets u with
          | .error _ => .error st1
          | .ok none => .ok st1
          | .ok (some ts) =>
              if ts.isEmpty then .ok st1
              else
                match newItemsE (jsGet st1.lastScrapedTweets u) ts with
                | .error _ => .error st1
                | .ok newTweets =>
                    let st2 := newTweets.foldl (processTweet env) st1
                    match newTweets with
                    | [] => .ok st2
                    | none :: _ => .error st2
                    | some t :: _ =>
                        let st3 := { st2 with
                          lastScrapedTweets := mapSet st2.lastScrapedTweets u t.id }
                        .ok (saveState env st3)

/-- One source's block of `scrapeData` with its source-level `catch`. -/
def scrapeSource (env : Env) (st : EngineSt) (u : String) : EngineSt :=
  exAbsorb (scrapeSourceBody env st u)

/-- The `scrapeData` loop over an explicit source list. -/
def scrapeDataList (env : Env) (l : List String) (st : EngineSt) : EngineSt :=
  l.foldl (scrapeSource env) st

/-- `scrapeData` from the source: one pass over all configured accounts. -/
def scrapeData (env : Env) (st : EngineSt) : EngineSt :=
  scrapeDataList env env.targets st

/-! ### Lifecycle (`start`) -/

/-- `start` from the source. Returns the resulting state and whether an error
crossed the `start` boundary (`true` = thrown to the caller). The early-return
on `isRunning` only logs a warning. A `client.init()` failure is rethrown
after resetting `isRunning`, leaving the state unchanged. On success the two
scheduler registrations are recorded; the scheduled `scrapeData` invocations
run asynchronously with their own `.catch`. -/
def start (env : Env) (st : EngineSt) : EngineSt × Bool :=
  if st.isRunning then (st, false)
  else if env.initFail then (st, true)
  else
    let st1 := { st with isRunning := true, ops := st.ops ++ [Op.clientInit] }
    let st2 := loadState env st1
    let st3 := initializeLastScrapedTweets env st2
    ({ st3 with ops := st3.ops ++ [Op.scheduleInitial, Op.scheduleRepeating] }, false)

/-! ### Spec-side definitions and well-formedness predicates -/

/-- Written from the spec's words for comparison with the code: the maximal
prefix of the fetched sequence whose identifiers compare greater than the
watermark `w` (an item without an identifier does not compare greater). -/
def specMaxPrefixGt (w : String) (ts : List (Option Tweet)) : List (Option Tweet) :=
  ts.takeWhile (fun x =>
    match x with
    | some t => keepNewer w t
    | none => false)

/-- JS `<` between two possibly-`undefined` string values: any comparison
involving `undefined` is `false` (NaN semantics). -/
def jsLtOpt : Option String → Option String → Bool
  | some a, some b => decide (a < b)
  | _, _ => false

/-- How one engine step may change a stored watermark value: unchanged, or —
when the prior value was a truthy string — strictly increased. -/
def monoRel (V W : Option String) : Prop :=
  W = V ∨ ∀ w, V = some w → w ≠ "" → ∃ i, W = some i ∧ w < i

/-- The identifiers of the present items of a fetched sequence. -/
def tweetIds (ts : List (Option Tweet)) : List String :=
  ts.filterMap (fun x => x.bind Tweet.id)

/-- Every element of the fetched sequence is a present item carrying a
non-empty identifier (the spec's item interface contract). -/
def presentIds (ts : List (Option Tweet)) : Prop :=
  ∀ x ∈ ts, ∃ t i, x = some t ∧ t.id = some i ∧ i ≠ ""

/-- The fetched sequence is newest-first: identifiers are non-increasing
(the spec's `SourceClient.getItems` ordering contract). -/
def sortedDescIds (l : List String) : Prop :=
  List.Chain' (fun a b => b ≤ a) l

/-- A source for which the collaborators behave per the spec's interface
contracts: profile fetch succeeds, the profile upsert can be stored, and the
item fetch returns a newest-first sequence of identified items. -/
def goodSource (env : Env) (u : String) : Prop :=
  (∃ p, env.getUserProfile u = .ok (some p)) ∧
  env.createFail (u ++ "-profile") = false ∧
  (env.getUserTweets u = .ok none ∨
    ∃ ts, env.getUserTweets u = .ok (some ts) ∧ presentIds ts ∧
      sortedDescIds (tweetIds ts))

/-- Derived record keys do not collide: no item-record key equals a
profile-record key, and no profile-record key equals the state key. -/
def keysOK (env : Env) : Prop :=
  ∀ u ∈ env.targets,
    (u ++ "-profile" ≠ stateKey) ∧
    ∀ v ∈ env.targets, ∀ ts, env.getUserTweets v = .ok (some ts) →
      ∀ i ∈ tweetIds ts, "tweet-" ++ i ≠ u ++ "-profile"

/-- Post-pass invariant for one source: its profile record holds the current
formatted text, and — when the source has a non-empty fetched sequence — its
watermark is a truthy string dominating every fetched identifier. -/
def InvSrc (env : Env) (st : EngineSt) (u : String) : Prop :=
  (∀ p, env.getUserProfile u = .ok (some p) →
    ∃ r, (storeGet st.store (u ++ "-profile")).head? = some r ∧
      r.text = formatProfileForRAG p) ∧
  (∀ ts, env.getUserTweets u = .ok (some ts) → ts ≠ [] →
    ∃ w, jsGet st.lastScrapedTweets u = some w ∧ w ≠ "" ∧
      ∀ i ∈ tweetIds ts, i ≤ w)

/-- The value `initializeLastScrapedTweets` would seed for a source, reading
only the store: `some idv` when a stored collection exists, parses, and has a
first element with an id field; `none` when the inspection fails or finds
nothing (the source is skipped). -/
def seedVal (env : Env) (s : List (String × KRec)) (u : String) :
    Option (Option String) :=
  match (storeGet s (u ++ "-tweets")).head? with
  | none => none
  | some r =>
      match env.parseTweets r.text with
      | .error _ => none
      | .ok l =>
          match l.head? with
          | none => none
          | some none => none
          | some (some idv) => some idv

/-! ### Map lemmas -/

theorem mapGet_set_self (m : List (String × Option String)) (k : String)
    (v : Option String) : mapGet (mapSet m k v) k = some v := by
  induction m with
  | nil => simp [mapSet, mapGet]
  | cons e rest ih =>
      by_cases he : e.1 = k
      · simp [mapSet, mapGet, he]
      · simpa [mapSet, mapGet, he] using ih

theorem mapGet_set_other (m : List (String × Option String)) (k k' : String)
    (v : Option String) (h : k' ≠ k) : mapGet (mapSet m k v) k' = mapGet m k' := by
  induction m with
  | nil => simp [mapSet, mapGet, Ne.symm h]
  | cons e rest ih =>
      by_cases he : e.1 = k
      · simp [mapSet, mapGet, he, Ne.symm h]
      · by_cases he' : e.1 = k'
        · simp [mapSet, mapGet, he, he', h]
        · simpa [mapSet, mapGet, he, he'] using ih

theorem mapGet_none_of_not_has (m : List (String × Option String)) (k : String)
    (h : mapHas m k = false) : mapGet m k = none := by
  induction m with
  | nil => simp [mapGet]
  | cons e rest ih =>
      simp [mapHas] at h
      simpa [mapGet, h.1] using ih h.2





/-! ### Store lemmas -/

theorem storeGet_remove_self (s : List (String × KRec)) (k : String) :
    storeGet (storeRemove s k) k = [] := by
  induction s with
  | nil => simp [storeRemove, storeGet]
  | cons e rest ih =>
      by_cases he : e.1 = k
      · simpa [storeRemove, he] using ih
      · simpa [storeRemove, storeGet, he] using ih

theorem storeGet_remove_other (s : List (String × KRec)) (k k' : String)
    (h : k' ≠ k) : storeGet (storeRemove s k) k' = storeGet s k' := by
  induction s with
  | nil => simp [storeRemove]
  | cons e rest ih =>
      by_cases he : e.1 = k
      · simpa [storeRemove, storeGet, he, Ne.symm h] using ih
      · by_cases he' : e.1 = k'
        · simpa [storeRemove, storeGet, he, he', h] using ih
        · simpa [storeRemove, storeGet, he, he'] using ih

theorem storeGet_add_self (s : List (String × KRec)) (k : String) (r : KRec) :
    storeGet (storeAdd s k r) k = storeGet s k ++ [r] := by
  induction s with
  | nil => simp [storeAdd, storeGet]
  | cons e rest ih =>
      by_cases he : e.1 = k
      · simpa [storeAdd, storeGet, he] using ih
      · simpa [storeAdd, storeGet, he] using ih

theorem storeGet_add_other (s : List (String × KRec)) (k k' : String) (r : KRec)
    (h : k' ≠ k) : storeGet (storeAdd s k r) k' = storeGet s k' := by
  induction s with
  | nil => simp [storeAdd, storeGet, Ne.symm h]
  | cons e rest ih =>
      by_cases he' : e.1 = k'
      · simpa [storeAdd, storeGet, he'] using ih
      · simpa [storeAdd, storeGet, he'] using ih

theorem storeGet_nil_iff (s : List (String × KRec)) (k : String) :
    storeGet s k = [] ↔ ∀ e ∈ s, e.1 ≠ k := by
  induction s with
  | nil => simp [storeGet]
  | cons e rest ih =>
      by_cases he : e.1 = k
      · simp [storeGet, he]
      · simp [storeGet, he, ih]

theorem keys_remove_sublist (s : List (String × KRec)) (k : String) :
    List.Sublist ((storeRemove s k).map Prod.fst) (s.map Prod.fst) := by
  induction s with
  | nil => simp [storeRemove]
  | cons e rest ih =>
      by_cases he : e.1 = k
      · simp only [storeRemove, he, if_pos rfl, List.map_cons]
        exact ih.trans (List.sublist_cons_self _ _)
      · simp only [storeRemove, if_neg he, List.map_cons]
        exact ih.cons₂ _

theorem not_mem_keys_remove (s : List (String × KRec)) (k : String) :
    k ∉ (storeRemove s k).map Prod.fst := by
  induction s with
  | nil => simp [storeRemove]
  | cons e rest ih =>
      by_cases he : e.1 = k
      · simpa [storeRemove, he] using ih
      · intro hmem
        rcases (by simpa [storeRemove, he] using hmem :
            k = e.1 ∨ ∃ x, (k, x) ∈ storeRemove rest k) with h1 | ⟨x, h1⟩
        · exact he h1.symm
        · exact ih (by simpa using List.mem_map_of_mem Prod.fst h1)

/-! ### `storeKnowledge` characterization -/

theorem storeKnowledge_noop (env : Env) (st : EngineSt) (key content : String)
    (r : KRec) (hr : (storeGet st.store key).head? = some r)
    (ht : r.text = content) : storeKnowledge env st key content = .ok st := by
  unfold storeKnowledge
  simp [hr, ht]

theorem storeKnowledge_replace (env : Env) (st : EngineSt) (key content : String)
    (r : KRec) (hr : (storeGet st.store key).head? = some r)
    (ht : r.text ≠ content) (hc : env.createFail key = false) :
    ∃ st', storeKnowledge env st key content = .ok st' ∧
      st'.ops = st.ops ++ [Op.remove key, Op.create key content] ∧
      storeGet st'.store key = [⟨content, st.clock⟩] ∧
      st'.lastScrapedTweets = st.lastScrapedTweets ∧
      st'.isRunning = st.isRunning ∧
      st'.clock = st.clock + 1 ∧
      (∀ k', k' ≠ key → storeGet st'.store k' = storeGet st.store k') := by
  refine ⟨{ st with
      store := storeAdd (storeRemove st.store key) key ⟨content, st.clock⟩,
      clock := st.clock + 1,
      ops := (st.ops ++ [Op.remove key]) ++ [Op.create key content] }, ?_, ?_, ?_, rfl, rfl, rfl, ?_⟩
  · unfold storeKnowledge createKnowledge
    simp [hr, ht, hc]
  · simp
  · simp [storeGet_add_self, storeGet_remove_self]
  · intro k' hk
    simp [storeGet_add_other _ _ _ _ hk, storeGet_remove_other _ _ _ hk]

theorem storeKnowledge_fresh (env : Env) (st : EngineSt) (key content : String)
    (hr : (storeGet st.store key).head? = none)
    (hc : env.createFail key = false) :
    ∃ st', storeKnowledge env st key content = .ok st' ∧
      st'.ops = st.ops ++ [Op.create key content] ∧
      storeGet st'.store key = [⟨content, st.clock⟩] ∧
      st'.lastScrapedTweets = st.lastScrapedTweets ∧
      st'.isRunning = st.isRunning ∧
      st'.clock = st.clock + 1 ∧
      (∀ k', k' ≠ key → storeGet st'.store k' = storeGet st.store k') := by
  have hnil : storeGet st.store key = [] := by
    cases h : storeGet st.store key with
    | nil => rfl
    | cons a l => rw [h] at hr; simp at hr
  refine ⟨{ st with
      store := storeAdd st.store key ⟨content, st.clock⟩,
      clock := st.clock + 1,
      ops := st.ops ++ [Op.create key content] }, ?_, rfl, ?_, rfl, rfl, rfl, ?_⟩
  · unfold storeKnowledge createKnowledge
    simp [hr, hc]
  · simp [storeGet_add_self, hnil]
  · intro k' hk
    simp [storeGet_add_other _ _ _ _ hk]

/-! ### Frame lemmas for absorbed (caught) operations -/

theorem storeKnowledge_absorb_frame (env : Env) (st : EngineSt) (key content : String) :
    (exAbsorb (storeKnowledge env st key content)).lastScrapedTweets = st.lastScrapedTweets ∧
    (exAbsorb (storeKnowledge env st key content)).isRunning = st.isRunning ∧
    (∀ k', k' ≠ key →
      storeGet (exAbsorb (storeKnowledge env st key content)).store k' = storeGet st.store k') ∧
    (∃ l, (exAbsorb (storeKnowledge env st key content)).ops = st.ops ++ l ∧
      ∀ k c, Op.create k c ∈ l → k = key) := by
  cases hh : (storeGet st.store key).head? with
  | none =>
      cases hc : env.createFail key with
      | false =>
          refine ⟨?_, ?_, ?_, [Op.create key content], ?_, ?_⟩
          · simp [storeKnowledge, createKnowledge, exAbsorb, hh, hc]
          · simp [storeKnowledge, createKnowledge, exAbsorb, hh, hc]
          · intro k' hk
            simp [storeKnowledge, createKnowledge, exAbsorb, hh, hc,
              storeGet_add_other _ _ _ _ hk]
          · simp [storeKnowledge, createKnowledge, exAbsorb, hh, hc]
          · intro k c hm
            simp at hm
            exact hm.1
      | true =>
          refine ⟨?_, ?_, ?_, [], ?_, by simp⟩ <;>
            simp [storeKnowledge, createKnowledge, exAbsorb, hh, hc]
  | some r =>
      by_cases ht : r.text = content
      · refine ⟨?_, ?_, ?_, [], ?_, by simp⟩ <;>
          simp [storeKnowledge, exAbsorb, hh, ht]
      · cases hc : env.createFail key with
        | false =>
            refine ⟨?_, ?_, ?_, [Op.remove key, Op.create key content], ?_, ?_⟩
            · simp [storeKnowledge, createKnowledge, exAbsorb, hh, ht, hc]
            · simp [storeKnowledge, createKnowledge, exAbsorb, hh, ht, hc]
            · intro k' hk
              simp [storeKnowledge, createKnowledge, exAbsorb, hh, ht, hc,
                storeGet_add_other _ _ _ _ hk, storeGet_remove_other _ _ _ hk]
            · simp [storeKnowledge, createKnowledge, exAbsorb, hh, ht, hc]
            · intro k c hm
              simp at hm
              exact hm.1
        | true =>
            refine ⟨?_, ?_, ?_, [Op.remove key], ?_, by simp⟩
            · simp [storeKnowledge, createKnowledge, exAbsorb, hh, ht, hc]
            · simp [storeKnowledge, createKnowledge, exAbsorb, hh, ht, hc]
            · intro k' hk
              simp [storeKnowledge, createKnowledge, exAbsorb, hh, ht, hc,
                storeGet_remove_other _ _ _ hk]
            · simp [storeKnowledge, createKnowledge, exAbsorb, hh, ht, hc]

theorem saveState_frame (env : Env) (st : EngineSt) :
    (saveState env st).lastScrapedTweets = st.lastScrapedTweets ∧
    (saveState env st).isRunning = st.isRunning ∧
    (∀ k', k' ≠ stateKey → storeGet (saveState env st).store k' = storeGet st.store k') ∧
    (∃ l, (saveState env st).ops = st.ops ++ l ∧
      ∀ k c, Op.create k c ∈ l → k = stateKey) := by
  exact storeKnowledge_absorb_frame env { st with clock := st.clock + 1 } stateKey
    (serializeState st.lastScrapedTweets st.clock)

theorem saveState_persists (env : Env) (st : EngineSt)
    (hc : env.createFail stateKey = false) :
    ∃ rec, (storeGet (saveState env st).store stateKey).head? = some rec ∧
      rec.text = serializeState st.lastScrapedTweets st.clock := by
  have heq : saveState env st =
      exAbsorb (storeKnowledge env { st with clock := st.clock + 1 } stateKey
        (serializeState st.lastScrapedTweets st.clock)) := rfl
  rw [heq]
  cases hh : (storeGet st.store stateKey).head? with
  | none =>
      rcases storeKnowledge_fresh env { st with clock := st.clock + 1 } stateKey
          (serializeState st.lastScrapedTweets st.clock) hh hc with
        ⟨st', hsk, _, hg, _⟩
      exact ⟨⟨serializeState st.lastScrapedTweets st.clock, st.clock + 1⟩,
        by simp [hsk, exAbsorb, hg], rfl⟩
  | some r =>
      by_cases ht : r.text = serializeState st.lastScrapedTweets st.clock
      · refine ⟨r, ?_, ht⟩
        rw [storeKnowledge_noop env { st with clock := st.clock + 1 } stateKey
          (serializeState st.lastScrapedTweets st.clock) r hh ht]
        simpa [exAbsorb] using hh
      · rcases storeKnowledge_replace env { st with clock := st.clock + 1 } stateKey
            (serializeState st.lastScrapedTweets st.clock) r hh ht hc with
          ⟨st', hsk, _, hg, _⟩
        exact ⟨⟨serializeState st.lastScrapedTweets st.clock, st.clock + 1⟩,
          by simp [hsk, exAbsorb, hg], rfl⟩

theorem processTweet_frame (env : Env) (st : EngineSt) (x : Option Tweet) :
    (processTweet env st x).lastScrapedTweets = st.lastScrapedTweets ∧
    (processTweet env st x).isRunning = st.isRunning ∧
    (∀ k, (∀ t i, x = some t → t.id = some i → k ≠ "tweet-" ++ i) →
      storeGet (processTweet env st x).store k = storeGet st.store k) ∧
    (∃ l, (processTweet env st x).ops = st.ops ++ l ∧
      ∀ k c, Op.create k c ∈ l → ∃ t i, x = some t ∧ t.id = some i ∧ k = "tweet-" ++ i) := by
  cases x with
  | none => exact ⟨rfl, rfl, fun _ _ => rfl, [], by simp [processTweet], by simp⟩
  | some t =>
      cases hid : t.id with
      | none => exact ⟨by simp [processTweet, hid], by simp [processTweet, hid],
          fun _ _ => by simp [processTweet, hid], [],
          by simp [processTweet, hid], by simp⟩
      | some i =>
          by_cases hi : i = ""
          · exact ⟨by simp [processTweet, hid, hi], by simp [processTweet, hid, hi],
              fun _ _ => by simp [processTweet, hid, hi], [],
              by simp [processTweet, hid, hi], by simp⟩
          · have hpt : processTweet env st (some t) =
                exAbsorb (storeKnowledge env st ("tweet-" ++ i) (formatTweetForRAG t)) := by
              simp [processTweet, hid, hi]
            rcases storeKnowledge_absorb_frame env st ("tweet-" ++ i) (formatTweetForRAG t) with
              ⟨h1, h2, h3, l, h4, h5⟩
            refine ⟨by rw [hpt]; exact h1, by rw [hpt]; exact h2, ?_, l, by rw [hpt]; exact h4, ?_⟩
            · intro k hk
              rw [hpt]
              exact h3 k (hk t i rfl hid)
            · intro k c hm
              exact ⟨t, i, rfl, hid, h5 k c hm⟩

theorem itemLoop_frame (env : Env) (l : List (Option Tweet)) (st : EngineSt) :
    (l.foldl (processTweet env) st).lastScrapedTweets = st.lastScrapedTweets ∧
    (l.foldl (processTweet env) st).isRunning = st.isRunning ∧
    (∀ k, (∀ x ∈ l, ∀ t i, x = some t → t.id = some i → k ≠ "tweet-" ++ i) →
      storeGet (l.foldl (processTweet env) st).store k = storeGet st.store k) ∧
    (∃ l2, (l.foldl (processTweet env) st).ops = st.ops ++ l2 ∧
      ∀ k c, Op.create k c ∈ l2 →
        ∃ x ∈ l, ∃ t i, x = some t ∧ t.id = some i ∧ k = "tweet-" ++ i) := by
  induction l generalizing st with
  | nil => exact ⟨rfl, rfl, fun _ _ => rfl, [], by simp, by simp⟩
  | cons x rest ih =>
      rcases processTweet_frame env st x with ⟨p1, p2, p3, lx, p4, p5⟩
      rcases ih (processTweet env st x) with ⟨q1, q2, q3, lr, q4, q5⟩
      refine ⟨by simp [q1, p1], by simp [q2, p2], ?_, lx ++ lr, ?_, ?_⟩
      · intro k hk
        have hx := p3 k (fun t i h1 h2 => hk x (by simp) t i h1 h2)
        have hrest := q3 k (fun y hy t i h1 h2 => hk y (by simp [hy]) t i h1 h2)
        simp only [List.foldl_cons] at *
        rw [hrest, hx]
      · simp only [List.foldl_cons, q4, p4, List.append_assoc]
      · intro k c hm
        rcases List.mem_append.mp hm with h1 | h1
        · rcases p5 k c h1 with ⟨t, i, h2, h3, h4⟩
          exact ⟨x, by simp, t, i, h2, h3, h4⟩
        · rcases q5 k c h1 with ⟨y, hy, t, i, h2, h3, h4⟩
          exact ⟨y, by simp [hy], t, i, h2, h3, h4⟩

/-! ### Filter lemmas -/

theorem filterNewer_mem (w : String) (ts r : List (Option Tweet))
    (h : filterNewer w ts = .ok r) :
    ∀ x ∈ r, x ∈ ts ∧ ∃ t i, x = some t ∧ t.id = some i ∧ w < i := by
  induction ts generalizing r with
  | nil =>
      simp [filterNewer] at h
      subst h
      simp
  | cons y rest ih =>
      cases y with
      | none => simp [filterNewer] at h
      | some t =>
          rw [filterNewer] at h
          cases hr : filterNewer w rest with
          | error e => rw [hr] at h; simp at h
          | ok r0 =>
              rw [hr] at h
              simp at h
              by_cases hk : keepNewer w t = true
              · rw [if_pos hk] at h
                subst h
                intro x hx
                rcases List.mem_cons.mp hx with h1 | h1
                · subst h1
                  rcases (by cases hdi : t.id with
                    | none => simp [keepNewer, hdi] at hk
                    | some i => exact ⟨i, rfl, by simpa [keepNewer, hdi] using hk⟩ :
                      ∃ i, t.id = some i ∧ w < i) with ⟨i, hdi, hwi⟩
                  exact ⟨by simp, t, i, rfl, hdi, hwi⟩
                · rcases ih r0 hr x h1 with ⟨hm, hrest⟩
                  exact ⟨by simp [hm], hrest⟩
              · rw [if_neg hk] at h
                subst h
                intro x hx
                rcases ih r0 hr x hx with ⟨hm, hrest⟩
                exact ⟨by simp [hm], hrest⟩

theorem filterNewer_total (w : String) (ts : List (Option Tweet))
    (hp : ∀ x ∈ ts, ∃ t, x = some t) : ∃ r, filterNewer w ts = .ok r := by
  induction ts with
  | nil => exact ⟨[], rfl⟩
  | cons y rest ih =>
      rcases hp y (by simp) with ⟨t, ht⟩
      subst ht
      rcases ih (fun x hx => hp x (by simp [hx])) with ⟨r, hr⟩
      exact ⟨if keepNewer w t then some t :: r else r, by rw [filterNewer, hr]⟩

theorem filterNewer_nil_of_le (w : String) (ts : List (Option Tweet))
    (hp : ∀ x ∈ ts, ∃ t i, x = some t ∧ t.id = some i ∧ ¬ w < i) :
    filterNewer w ts = .ok [] := by
  induction ts with
  | nil => rfl
  | cons y rest ih =>
      rcases hp y (by simp) with ⟨t, i, hy, hid, hle⟩
      subst hy
      rw [filterNewer, ih (fun x hx => hp x (by simp [hx]))]
      simp [keepNewer, hid, hle]

/-! ### Sortedness and identifier lemmas -/

theorem sortedDesc_head_le (i0 : String) (is : List String)
    (h : sortedDescIds (i0 :: is)) : ∀ i ∈ is, i ≤ i0 := by
  induction is generalizing i0 with
  | nil => simp
  | cons i1 rest ih =>
      rw [sortedDescIds, List.chain'_cons] at h
      intro i hi
      rcases List.mem_cons.mp hi with h1 | h1
      · subst h1; exact h.1
      · exact le_trans (ih i1 h.2 i h1) h.1

theorem sortedDesc_tail (i0 : String) (is : List String)
    (h : sortedDescIds (i0 :: is)) : sortedDescIds is := by
  cases is with
  | nil => constructor
  | cons i1 rest =>
      rw [sortedDescIds, List.chain'_cons] at h
      exact h.2

theorem tweetIds_cons (t : Tweet) (i : String) (h : t.id = some i)
    (ts : List (Option Tweet)) : tweetIds (some t :: ts) = i :: tweetIds ts := by
  simp [tweetIds, h]

theorem mem_tweetIds (ts : List (Option Tweet)) (t : Tweet) (i : String)
    (hx : some t ∈ ts) (hid : t.id = some i) : i ∈ tweetIds ts := by
  simp only [tweetIds, List.mem_filterMap]
  exact ⟨some t, hx, by simp [hid]⟩

theorem presentIds_tail (y : Option Tweet) (ts : List (Option Tweet))
    (h : presentIds (y :: ts)) : presentIds ts :=
  fun x hx => h x (by simp [hx])

theorem filterNewer_eq_spec (w : String) (ts : List (Option Tweet))
    (hp : presentIds ts) (hs : sortedDescIds (tweetIds ts)) :
    filterNewer w ts = .ok (specMaxPrefixGt w ts) := by
  induction ts with
  | nil => rfl
  | cons y rest ih =>
      rcases hp y (by simp) with ⟨t, i, hy, hid, _⟩
      subst hy
      rw [tweetIds_cons t i hid rest] at hs
      by_cases hk : keepNewer w t = true
      · rw [filterNewer, ih (presentIds_tail _ _ hp) (sortedDesc_tail _ _ hs)]
        simp [specMaxPrefixGt, hk]
      · have hnil : filterNewer w rest = .ok [] := by
          apply filterNewer_nil_of_le
          intro x hx
          rcases presentIds_tail _ _ hp x hx with ⟨t', i', hx', hid', hne⟩
          refine ⟨t', i', hx', hid', ?_⟩
          have hle : i' ≤ i := sortedDesc_head_le i (tweetIds rest) hs i'
            (mem_tweetIds rest t' i' (hx' ▸ hx) hid')
          have hwi : ¬ w < i := by
            intro hc
            exact hk (by simp only [keepNewer, hid]; exact decide_eq_true hc)
          intro hc
          exact hwi (lt_of_lt_of_le hc hle)
        rw [filterNewer, hnil]
        simp [specMaxPrefixGt, hk]

/-! ### Auxiliary map/order lemmas -/

theorem jsGet_eq (m : List (String × Option String)) (k : String) :
    jsGet m k = (mapGet m k).join := rfl

theorem mapHas_false_iff (m : List (String × Option String)) (k : String) :
    mapHas m k = false ↔ mapGet m k = none := by
  induction m with
  | nil => simp [mapHas, mapGet]
  | cons e rest ih =>
      by_cases he : e.1 = k
      · simp [mapHas, mapGet, he]
      · simp [mapHas, mapGet, he, ih]

theorem mapHas_set_self (m : List (String × Option String)) (k : String)
    (v : Option String) : mapHas (mapSet m k v) k = true := by
  induction m with
  | nil => simp [mapSet, mapHas]
  | cons e rest ih =>
      by_cases he : e.1 = k
      · simp [mapSet, mapHas, he]
      · simp [mapSet, mapHas, he, ih]

theorem mapHas_set_other (m : List (String × Option String)) (k k' : String)
    (v : Option String) (h : k' ≠ k) : mapHas (mapSet m k v) k' = mapHas m k' := by
  induction m with
  | nil => simp [mapSet, mapHas, Ne.symm h]
  | cons e rest ih =>
      by_cases he : e.1 = k
      · simp [mapSet, mapHas, he, Ne.symm h]
      · simp [mapSet, mapHas, he, ih]

theorem string_not_lt_empty (s : String) : ¬ s < "" := by
  intro h
  rw [String.lt_iff_toList_lt, String.toList_empty] at h
  exact List.Lex.not_nil_right _ _ h

theorem monoRel_refl (V : Option String) : monoRel V V := Or.inl rfl

theorem monoRel_trans (V W X : Option String) (h1 : monoRel V W)
    (h2 : monoRel W X) : monoRel V X := by
  rcases h1 with h1 | h1
  · subst h1
    exact h2
  · rcases h2 with h2 | h2
    · subst h2
      exact Or.inr h1
    · refine Or.inr ?_
      intro w hV hw
      rcases h1 w hV hw with ⟨i, hW, hwi⟩
      have hine : i ≠ "" := by
        intro hc
        subst hc
        exact string_not_lt_empty w hwi
      rcases h2 i hW hine with ⟨j, hX, hij⟩
      exact ⟨j, hX, lt_trans hwi hij⟩

theorem monoRel_not_lt (V W : Option String) (h : monoRel V W) :
    jsLtOpt W V = false := by
  rcases h with h | h
  · subst h
    cases W with
    | none => rfl
    | some a => simp [jsLtOpt, lt_irrefl]
  · cases V with
    | none => cases W <;> rfl
    | some w =>
        by_cases hw : w = ""
        · subst hw
          cases W with
          | none => rfl
          | some s => simp [jsLtOpt, string_not_lt_empty s]
        · rcases h w rfl hw with ⟨i, hW, hwi⟩
          subst hW
          simp only [jsLtOpt]
          exact decide_eq_false (lt_asymm hwi)

/-! ### Per-source step lemmas -/

theorem profileStep (env : Env) (st : EngineSt) (u : String) (p : Profile)
    (hPC : env.createFail (u ++ "-profile") = false) :
    ∃ st1, storeKnowledge env st (u ++ "-profile") (formatProfileForRAG p) = .ok st1 ∧
      st1.lastScrapedTweets = st.lastScrapedTweets ∧
      st1.isRunning = st.isRunning ∧
      (∃ r, (storeGet st1.store (u ++ "-profile")).head? = some r ∧
        r.text = formatProfileForRAG p) ∧
      (∀ k, k ≠ u ++ "-profile" → storeGet st1.store k = storeGet st.store k) ∧
      (∃ l, st1.ops = st.ops ++ l ∧ ∀ k c, Op.create k c ∈ l → k = u ++ "-profile") := by
  cases hh : (storeGet st.store (u ++ "-profile")).head? with
  | none =>
      rcases storeKnowledge_fresh env st (u ++ "-profile") (formatProfileForRAG p) hh hPC with
        ⟨st1, heq, hops, hself, hmap, hrun, _, hother⟩
      exact ⟨st1, heq, hmap, hrun, ⟨⟨formatProfileForRAG p, st.clock⟩, by simp [hself], rfl⟩,
        hother, [Op.create (u ++ "-profile") (formatProfileForRAG p)], hops, by simp⟩
  | some r =>
      by_cases ht : r.text = formatProfileForRAG p
      · exact ⟨st, storeKnowledge_noop env st _ _ r hh ht, rfl, rfl, ⟨r, hh, ht⟩,
          fun _ _ => rfl, [], by simp, by simp⟩
      · rcases storeKnowledge_replace env st (u ++ "-profile") (formatProfileForRAG p) r hh ht hPC with
          ⟨st1, heq, hops, hself, hmap, hrun, _, hother⟩
        refine ⟨st1, heq, hmap, hrun, ⟨⟨formatProfileForRAG p, st.clock⟩, by simp [hself], rfl⟩,
          hother, [Op.remove (u ++ "-profile"), Op.create (u ++ "-profile") (formatProfileForRAG p)],
          by simp [hops], ?_⟩
        intro k c hm
        simp at hm
        exact hm.1

theorem body_noop (env : Env) (st : EngineSt) (u : String)
    (hg : goodSource env u) (hI : InvSrc env st u) :
    scrapeSourceBody env st u = .ok st := by
  rcases hg with ⟨⟨p, hP⟩, hPC, htw⟩
  rcases hI with ⟨hIp, hIw⟩
  rcases hIp p hP with ⟨r, hr, hrt⟩
  have hsk := storeKnowledge_noop env st (u ++ "-profile") (formatProfileForRAG p) r hr hrt
  rcases htw with hT | ⟨ts, hT, hpres, hsort⟩
  · simp only [scrapeSourceBody, hP, hsk, hT]
  · cases ts with
    | nil => simp only [scrapeSourceBody, hP, hsk, hT, List.isEmpty_nil, if_pos]
    | cons y rest =>
        rcases hIw (y :: rest) hT (by simp) with ⟨w, hw, hwne, hdom⟩
        have hfil : filterNewer w (y :: rest) = .ok [] := by
          apply filterNewer_nil_of_le
          intro x hx
          rcases hpres x hx with ⟨t, i, hxt, hid, _⟩
          refine ⟨t, i, hxt, hid, ?_⟩
          have hle : i ≤ w := hdom i (mem_tweetIds _ t i (hxt ▸ hx) hid)
          exact not_lt.mpr hle
        have hni : newItemsE (jsGet st.lastScrapedTweets u) (y :: rest) = .ok [] := by
          rw [hw]
          simp only [newItemsE, if_neg hwne]
          exact hfil
        simp only [scrapeSourceBody, hP, hsk, hT, List.isEmpty_cons, if_neg, hni]
        simp [hni]

theorem newItemsE_nil (w : Option String) : newItemsE w [] = .ok [] := by
  cases w with
  | none => rfl
  | some s =>
      by_cases hs : s = ""
      · simp [newItemsE, hs]
      · simp [newItemsE, hs, filterNewer]

theorem newItemsE_exists (w : Option String) (ts : List (Option Tweet))
    (hp : ∀ x ∈ ts, ∃ t, x = some t) : ∃ nt, newItemsE w ts = .ok nt := by
  cases w with
  | none => exact ⟨ts, rfl⟩
  | some s =>
      by_cases hs : s = ""
      · exact ⟨ts, by simp [newItemsE, hs]⟩
      · rcases filterNewer_total s ts hp with ⟨r, hr⟩
        exact ⟨r, by simp [newItemsE, hs, hr]⟩

theorem newItemsE_sub (w : Option String) (ts nt : List (Option Tweet))
    (h : newItemsE w ts = .ok nt) : ∀ x ∈ nt, x ∈ ts := by
  cases w with
  | none =>
      simp only [newItemsE] at h
      cases h
      exact fun x hx => hx
  | some s =>
      by_cases hs : s = ""
      · simp only [newItemsE, if_pos hs] at h
        cases h
        exact fun x hx => hx
      · simp only [newItemsE, if_neg hs] at h
        exact fun x hx => (filterNewer_mem s ts nt h x hx).1

theorem body_main (env : Env) (st : EngineSt) (u : String) (p : Profile)
    (ts : List (Option Tweet))
    (hP : env.getUserProfile u = .ok (some p))
    (hPC : env.createFail (u ++ "-profile") = false)
    (hT : env.getUserTweets u = .ok (some ts))
    (hpres : presentIds ts)
    (hk1 : u ++ "-profile" ≠ stateKey)
    (hk2 : ∀ i ∈ tweetIds ts, "tweet-" ++ i ≠ u ++ "-profile") :
    ∃ nt stE, newItemsE (jsGet st.lastScrapedTweets u) ts = .ok nt ∧
      scrapeSourceBody env st u = .ok stE ∧
      stE.isRunning = st.isRunning ∧
      (∃ r, (storeGet stE.store (u ++ "-profile")).head? = some r ∧
        r.text = formatProfileForRAG p) ∧
      (∀ v, v ≠ u → mapGet stE.lastScrapedTweets v = mapGet st.lastScrapedTweets v) ∧
      (∀ k, k ≠ u ++ "-profile" → k ≠ stateKey →
        (∀ i ∈ tweetIds ts, k ≠ "tweet-" ++ i) →
        storeGet stE.store k = storeGet st.store k) ∧
      ((nt = [] ∧ mapGet stE.lastScrapedTweets u = mapGet st.lastScrapedTweets u ∧
          (∀ k, k ≠ u ++ "-profile" → storeGet stE.store k = storeGet st.store k) ∧
          (∃ l, stE.ops = st.ops ++ l ∧ ∀ k c, Op.create k c ∈ l → k = u ++ "-profile")) ∨
       (∃ t0 rest2, nt = some t0 :: rest2 ∧
          mapGet stE.lastScrapedTweets u = some t0.id ∧
          (env.createFail stateKey = false →
            ∃ rec, (storeGet stE.store stateKey).head? = some rec ∧
              ∃ tc, rec.text = serializeState (mapSet st.lastScrapedTweets u t0.id) tc) ∧
          (∃ l, stE.ops = st.ops ++ l ∧ ∀ k c, Op.create k c ∈ l →
            k = u ++ "-profile" ∨ k = stateKey ∨
              ∃ x ∈ nt, ∃ t i, x = some t ∧ t.id = some i ∧ k = "tweet-" ++ i))) := by
  rcases profileStep env st u p hPC with
    ⟨st1, hsk, hmap1, hrun1, hprof1, hother1, l1, hops1, hcr1⟩
  cases ts with
  | nil =>
      refine ⟨[], st1, newItemsE_nil _, ?_, hrun1, hprof1, ?_, ?_, Or.inl ⟨rfl, ?_, ?_, l1, hops1, hcr1⟩⟩
      · simp only [scrapeSourceBody, hP, hsk, hT, List.isEmpty_nil, if_pos]
      · intro v _
        rw [hmap1]
      · intro k hk _ _
        exact hother1 k hk
      · rw [hmap1]
      · intro k hk
        exact hother1 k hk
  | cons y rest =>
      rcases newItemsE_exists (jsGet st.lastScrapedTweets u) (y :: rest)
          (fun x hx => by
            rcases hpres x hx with ⟨t, i, hxt, _, _⟩
            exact ⟨t, hxt⟩) with ⟨nt, hni⟩
      have hni1 : newItemsE (jsGet st1.lastScrapedTweets u) (y :: rest) = .ok nt := by
        rw [hmap1]
        exact hni
      have hsub : ∀ x ∈ nt, x ∈ (y :: rest) := newItemsE_sub _ _ _ hni
      rcases itemLoop_frame env nt st1 with ⟨hm2, hr2, hs2, l2, hops2, hcr2⟩
      cases nt with
      | nil =>
          have hbody : scrapeSourceBody env st u = .ok st1 := by
            simp only [scrapeSourceBody, hP, hsk, hT, List.isEmpty_cons, Bool.false_eq_true,
              if_false, hni1, List.foldl_nil]
          refine ⟨[], st1, hni, hbody, hrun1, hprof1, ?_, ?_,
            Or.inl ⟨rfl, by rw [hmap1], ?_, l1, hops1, hcr1⟩⟩
          · intro v _
            rw [hmap1]
          · intro k hk _ _
            exact hother1 k hk
          · intro k hk
            exact hother1 k hk
      | cons x nrest =>
          rcases hpres x (hsub x (by simp)) with ⟨t0, i0, hxt, hid0, hi0⟩
          subst hxt
          set st2 := (some t0 :: nrest).foldl (processTweet env) st1 with hst2
          set st3 := { st2 with lastScrapedTweets := mapSet st2.lastScrapedTweets u t0.id }
            with hst3
          have hbody : scrapeSourceBody env st u = .ok (saveState env st3) := by
            rw [hst3, hst2]
            simp only [scrapeSourceBody, hP, hsk, hT, List.isEmpty_cons, Bool.false_eq_true,
              if_false, hni1]
          have hstore2 : ∀ k, k ≠ u ++ "-profile" →
              (∀ i ∈ tweetIds (y :: rest), k ≠ "tweet-" ++ i) →
              storeGet st2.store k = storeGet st.store k := by
            intro k hk hkt
            rw [hs2 k ?_, hother1 k hk]
            intro z hz t i hzt hid
            exact hkt i (mem_tweetIds _ t i (hzt ▸ hsub z hz) hid)
          rcases saveState_frame env st3 with ⟨hm4, hr4, hs4, l4, hops4, hcr4⟩
          refine ⟨some t0 :: nrest, saveState env st3, hni, hbody, ?_, ?_, ?_, ?_,
            Or.inr ⟨t0, nrest, rfl, ?_, ?_, ?_⟩⟩
          · rw [hr4, hst3]
            show st2.isRunning = st.isRunning
            rw [hr2, hrun1]
          · rcases hprof1 with ⟨r, hr, hrt⟩
            refine ⟨r, ?_, hrt⟩
            rw [hs4 _ hk1]
            show (storeGet st2.store (u ++ "-profile")).head? = some r
            rw [hs2 _ ?_]
            · exact hr
            · intro z hz t i hzt hidz
              exact Ne.symm (hk2 i (mem_tweetIds _ t i (hzt ▸ hsub z hz) hidz))
          · intro v hv
            rw [hm4, hst3]
            show mapGet (mapSet st2.lastScrapedTweets u t0.id) v = mapGet st.lastScrapedTweets v
            rw [mapGet_set_other _ _ _ _ hv, hm2, hmap1]
          · intro k hk1b hk2b hk3b
            rw [hs4 _ hk2b]
            show storeGet st2.store k = storeGet st.store k
            exact hstore2 k hk1b hk3b
          · rw [hm4, hst3]
            show mapGet (mapSet st2.lastScrapedTweets u t0.id) u = some t0.id
            exact mapGet_set_self _ _ _
          · intro hcf
            rcases saveState_persists env st3 hcf with ⟨rec, hh, htx⟩
            refine ⟨rec, hh, st3.clock, ?_⟩
            rw [htx, hst3]
            show serializeState (mapSet st2.lastScrapedTweets u t0.id) st3.clock = _
            rw [hm2, hmap1]
          · refine ⟨l1 ++ l2 ++ l4, ?_, ?_⟩
            · rw [hops4, hst3]
              show (st2.ops ++ l4) = st.ops ++ (l1 ++ l2 ++ l4)
              rw [hops2, hops1]
              simp [List.append_assoc]
            · intro k c hm
              rcases List.mem_append.mp hm with h1 | h1
              · rcases List.mem_append.mp h1 with h2 | h2
                · exact Or.inl (hcr1 k c h2)
                · rcases hcr2 k c h2 with ⟨z, hz, t, i, hzt, hidz, hkk⟩
                  exact Or.inr (Or.inr ⟨z, hz, t, i, hzt, hidz, hkk⟩)
              · exact Or.inr (Or.inl (hcr4 k c h1))

theorem storeKnowledge_map_any (env : Env) (st : EngineSt) (key c : String) :
    (exAbsorb (storeKnowledge env st key c)).lastScrapedTweets = st.lastScrapedTweets :=
  (storeKnowledge_absorb_frame env st key c).1

theorem step_mono (env : Env) (st : EngineSt) (v u : String) (V : Option String)
    (h : mapGet st.lastScrapedTweets u = some V) :
    ∃ W, mapGet (scrapeSource env st v).lastScrapedTweets u = some W ∧ monoRel V W := by
  cases hP : env.getUserProfile v with
  | error e =>
      exact ⟨V, by simp [scrapeSource, scrapeSourceBody, hP, exAbsorb, h], monoRel_refl V⟩
  | ok po =>
  cases po with
  | none =>
      exact ⟨V, by simp [scrapeSource, scrapeSourceBody, hP, exAbsorb, h], monoRel_refl V⟩
  | some p =>
  cases hsk : storeKnowledge env st (v ++ "-profile") (formatProfileForRAG p) with
  | error s =>
      have hms : s.lastScrapedTweets = st.lastScrapedTweets := by
        have hframe := storeKnowledge_map_any env st (v ++ "-profile") (formatProfileForRAG p)
        rw [hsk] at hframe
        exact hframe
      refine ⟨V, ?_, monoRel_refl V⟩
      simp [scrapeSource, scrapeSourceBody, hP, hsk, exAbsorb, hms, h]
  | ok st1 =>
  have hm1 : st1.lastScrapedTweets = st.lastScrapedTweets := by
    have hframe := storeKnowledge_map_any env st (v ++ "-profile") (formatProfileForRAG p)
    rw [hsk] at hframe
    exact hframe
  cases hT : env.getUserTweets v with
  | error e =>
      refine ⟨V, ?_, monoRel_refl V⟩
      simp [scrapeSource, scrapeSourceBody, hP, hsk, hT, exAbsorb, hm1, h]
  | ok tso =>
  cases tso with
  | none =>
      refine ⟨V, ?_, monoRel_refl V⟩
      simp [scrapeSource, scrapeSourceBody, hP, hsk, hT, exAbsorb, hm1, h]
  | some ts =>
  cases ts with
  | nil =>
      refine ⟨V, ?_, monoRel_refl V⟩
      simp [scrapeSource, scrapeSourceBody, hP, hsk, hT, exAbsorb, hm1, h]
  | cons y rest =>
  cases hni : newItemsE (jsGet st.lastScrapedTweets v) (y :: rest) with
  | error e =>
      refine ⟨V, ?_, monoRel_refl V⟩
      simp [scrapeSource, scrapeSourceBody, hP, hsk, hT, hni, exAbsorb, hm1, h]
  | ok nt =>
  rcases itemLoop_frame env nt st1 with ⟨hm2, _, _, _, _, _⟩
  cases nt with
  | nil =>
      refine ⟨V, ?_, monoRel_refl V⟩
      have hbody : scrapeSource env st v = [].foldl (processTweet env) st1 := by
        simp [scrapeSource, scrapeSourceBody, hP, hsk, hT, hni, exAbsorb, hm1]
      rw [hbody]
      simp [hm1, h]
  | cons x nrest =>
  cases x with
  | none =>
      refine ⟨V, ?_, monoRel_refl V⟩
      have hbody : scrapeSource env st v = (none :: nrest).foldl (processTweet env) st1 := by
        simp [scrapeSource, scrapeSourceBody, hP, hsk, hT, hni, exAbsorb, hm1]
      rw [hbody, hm2, hm1]
      exact h
  | some t0 =>
      have hbody : scrapeSource env st v = saveState env
          { (some t0 :: nrest).foldl (processTweet env) st1 with
            lastScrapedTweets :=
              mapSet ((some t0 :: nrest).foldl (processTweet env) st1).lastScrapedTweets
                v t0.id } := by
        simp [scrapeSource, scrapeSourceBody, hP, hsk, hT, hni, exAbsorb, hm1]
      have hmE : (scrapeSource env st v).lastScrapedTweets =
          mapSet ((some t0 :: nrest).foldl (processTweet env) st1).lastScrapedTweets
            v t0.id := by
        rw [hbody]
        exact (saveState_frame env _).1
      by_cases hvu : v = u
      · subst hvu
        refine ⟨t0.id, ?_, ?_⟩
        · rw [hmE]
          exact mapGet_set_self _ _ _
        · refine Or.inr ?_
          intro w hV hw
          subst hV
          have hjs : jsGet st.lastScrapedTweets v = some w := by
            rw [jsGet_eq, h]
            rfl
          rw [hjs] at hni
          simp only [newItemsE, if_neg hw] at hni
          rcases (filterNewer_mem w (y :: rest) (some t0 :: nrest) hni (some t0)
            (by simp)).2 with ⟨t, i, hts, hid, hwi⟩
          cases hts
          exact ⟨i, by rw [hid], hwi⟩
      · refine ⟨V, ?_, monoRel_refl V⟩
        rw [hmE, mapGet_set_other _ _ _ _ (Ne.symm hvu), hm2, hm1]
        exact h

theorem fold_mono (env : Env) (l : List String) (st : EngineSt) (u : String)
    (V : Option String) (h : mapGet st.lastScrapedTweets u = some V) :
    ∃ W, mapGet (scrapeDataList env l st).lastScrapedTweets u = some W ∧ monoRel V W := by
  induction l generalizing st V with
  | nil => exact ⟨V, h, monoRel_refl V⟩
  | cons v rest ih =>
      rcases step_mono env st v u V h with ⟨W1, h1, hr1⟩
      rcases ih (scrapeSource env st v) W1 h1 with ⟨W2, h2, hr2⟩
      exact ⟨W2, h2, monoRel_trans V W1 W2 hr1 hr2⟩

theorem string_append_cancel (u v s : String) (h : u ++ s = v ++ s) : u = v := by
  have hd : u.data ++ s.data = v.data ++ s.data := by
    rw [← String.data_append, ← String.data_append, h]
  have hdata : u.data = v.data := List.append_cancel_right hd
  exact String.toList_inj.mp hdata

theorem profileKey_inj (u v : String) (h : u ≠ v) :
    u ++ "-profile" ≠ v ++ "-profile" := by
  intro hc
  exact h (string_append_cancel u v "-profile" hc)

theorem spec_cons (w : String) (t0 : Tweet) (rest : List (Option Tweet)) :
    specMaxPrefixGt w (some t0 :: rest) =
      if keepNewer w t0 then some t0 :: specMaxPrefixGt w rest else [] := by
  simp [specMaxPrefixGt, List.takeWhile_cons]

theorem body_establish (env : Env) (st : EngineSt) (u : String)
    (hg : goodSource env u)
    (hk1 : u ++ "-profile" ≠ stateKey)
    (hk2 : ∀ ts, env.getUserTweets u = .ok (some ts) →
      ∀ i ∈ tweetIds ts, "tweet-" ++ i ≠ u ++ "-profile") :
    InvSrc env (scrapeSource env st u) u := by
  rcases hg with ⟨⟨p, hP⟩, hPC, htw⟩
  rcases htw with hT | ⟨ts, hT, hpres, hsort⟩
  · rcases profileStep env st u p hPC with
      ⟨st1, hsk, hmap1, hrun1, hprof1, hother1, l1, hops1, hcr1⟩
    have hbody : scrapeSource env st u = st1 := by
      simp [scrapeSource, scrapeSourceBody, hP, hsk, hT, exAbsorb]
    rw [hbody]
    constructor
    · intro p2 hp2
      rw [hP] at hp2
      simp at hp2
      subst hp2
      exact hprof1
    · intro ts2 hts2
      rw [hT] at hts2
      simp at hts2
  · rcases body_main env st u p ts hP hPC hT hpres hk1 (hk2 ts hT) with
      ⟨nt, stE, hni, hbody, hrunE, hprofE, hmapO, hframe, hcase⟩
    have hsrc : scrapeSource env st u = stE := by
      simp [scrapeSource, hbody, exAbsorb]
    rw [hsrc]
    refine ⟨?_, ?_⟩
    · intro p2 hp2
      rw [hP] at hp2
      simp at hp2
      subst hp2
      exact hprofE
    · intro ts2 hts2 hne
      rw [hT] at hts2
      simp at hts2
      subst hts2
      cases ts with
      | nil => exact absurd rfl hne
      | cons y rest =>
          rcases hpres y (by simp) with ⟨t0, i0, hy, hid0, hi0⟩
          subst hy
          have hids : tweetIds (some t0 :: rest) = i0 :: tweetIds rest :=
            tweetIds_cons t0 i0 hid0 rest
          have hdom0 : ∀ i ∈ tweetIds (some t0 :: rest), i ≤ i0 := by
            intro i hi
            rw [hids] at hi hsort
            rcases List.mem_cons.mp hi with h1 | h1
            · exact le_of_eq h1
            · exact sortedDesc_head_le i0 (tweetIds rest) hsort i h1
          have hadvance : ∀ t0' rest2, nt = some t0' :: rest2 → t0' = t0 →
              ∃ w, jsGet stE.lastScrapedTweets u = some w ∧ w ≠ "" ∧
                ∀ i ∈ tweetIds (some t0 :: rest), i ≤ w := by
            intro t0' rest2 hnt ht0
            subst ht0
            rcases hcase with ⟨hnil, _⟩ | ⟨t0b, rest2b, hntb, hadv, _, _⟩
            · rw [hnt] at hnil
              cases hnil
            · rw [hnt] at hntb
              injection hntb with h1 h2
              injection h1 with h1e
              rw [← h1e] at hadv
              refine ⟨i0, ?_, hi0, hdom0⟩
              rw [jsGet_eq, hadv, hid0]
              rfl
          cases hW : jsGet st.lastScrapedTweets u with
          | none =>
              rw [hW] at hni
              simp only [newItemsE] at hni
              injection hni with hnte
              exact hadvance t0 rest hnte.symm rfl
          | some w =>
              by_cases hw : w = ""
              · subst hw
                rw [hW] at hni
                simp only [newItemsE, if_pos rfl] at hni
                injection hni with hnte
                exact hadvance t0 rest hnte.symm rfl
              · rw [hW] at hni
                simp only [newItemsE, if_neg hw] at hni
                rw [filterNewer_eq_spec w _ hpres hsort] at hni
                injection hni with hnte
                by_cases hkp : keepNewer w t0 = true
                · rw [spec_cons, if_pos hkp] at hnte
                  exact hadvance t0 (specMaxPrefixGt w rest) hnte.symm rfl
                · rw [spec_cons, if_neg hkp] at hnte
                  have hi0w : i0 ≤ w := by
                    have : ¬ w < i0 := by
                      intro hc
                      exact hkp (by simp only [keepNewer, hid0]; exact decide_eq_true hc)
                    exact not_lt.mp this
                  rcases hcase with ⟨_, hmapU, _, _⟩ | ⟨t0b, rest2b, hntb, _, _, _⟩
                  · refine ⟨w, ?_, hw, ?_⟩
                    · rw [jsGet_eq, hmapU, ← jsGet_eq, hW]
                    · intro i hi
                      exact le_trans (hdom0 i hi) hi0w
                  · rw [← hnte] at hntb
                    cases hntb

theorem body_preserve (env : Env) (st : EngineSt) (u v : String)
    (hgv : goodSource env v)
    (hku1 : u ++ "-profile" ≠ stateKey)
    (hkv1 : v ++ "-profile" ≠ stateKey)
    (hk2uv : ∀ ts, env.getUserTweets v = .ok (some ts) →
      ∀ i ∈ tweetIds ts, "tweet-" ++ i ≠ u ++ "-profile")
    (hk2vv : ∀ ts, env.getUserTweets v = .ok (some ts) →
      ∀ i ∈ tweetIds ts, "tweet-" ++ i ≠ v ++ "-profile")
    (hI : InvSrc env st u) :
    InvSrc env (scrapeSource env st v) u := by
  by_cases hvu : v = u
  · subst hvu
    exact body_establish env st v hgv hkv1 hk2vv
  · rcases hgv with ⟨⟨p, hP⟩, hPC, htw⟩
    rcases htw with hT | ⟨ts, hT, hpres, hsort⟩
    · rcases profileStep env st v p hPC with ⟨st1, hsk, hmap1, _, _, hother1, _, _, _⟩
      have hbody : scrapeSource env st v = st1 := by
        simp [scrapeSource, scrapeSourceBody, hP, hsk, hT, exAbsorb]
      rw [hbody]
      constructor
      · intro p2 hp2
        rcases hI.1 p2 hp2 with ⟨r, hr, hrt⟩
        exact ⟨r, by rw [hother1 _ (profileKey_inj u v (Ne.symm hvu))]; exact hr, hrt⟩
      · intro ts2 hts2 hne
        rcases hI.2 ts2 hts2 hne with ⟨w, hw, hwne, hdom⟩
        exact ⟨w, by rw [jsGet_eq, hmap1, ← jsGet_eq]; exact hw, hwne, hdom⟩
    · rcases body_main env st v p ts hP hPC hT hpres hkv1 (hk2vv ts hT) with
        ⟨nt, stE, hni, hbody, _, _, hmapO, hframe, _⟩
      have hsrc : scrapeSource env st v = stE := by
        simp [scrapeSource, hbody, exAbsorb]
      rw [hsrc]
      constructor
      · intro p2 hp2
        rcases hI.1 p2 hp2 with ⟨r, hr, hrt⟩
        refine ⟨r, ?_, hrt⟩
        rw [hframe (u ++ "-profile") (profileKey_inj u v (Ne.symm hvu)) hku1 ?_]
        · exact hr
        · intro i hi
          exact Ne.symm (hk2uv ts hT i hi)
      · intro ts2 hts2 hne
        rcases hI.2 ts2 hts2 hne with ⟨w, hw, hwne, hdom⟩
        refine ⟨w, ?_, hwne, hdom⟩
        rw [jsGet_eq, hmapO u (Ne.symm hvu), ← jsGet_eq]
        exact hw

theorem fold_establish (env : Env) (hkeys : keysOK env) :
    ∀ l, (∀ w ∈ l, w ∈ env.targets ∧ goodSource env w) → ∀ st,
      (∀ u, u ∈ env.targets → InvSrc env st u →
        InvSrc env (scrapeDataList env l st) u) ∧
      (∀ u ∈ l, InvSrc env (scrapeDataList env l st) u) := by
  intro l
  induction l with
  | nil => exact fun _ st => ⟨fun u _ h => h, by simp⟩
  | cons v rest ih =>
      intro hl st
      obtain ⟨hvmem, hgv⟩ := hl v (by simp)
      have ihr := ih (fun w hw => hl w (by simp [hw])) (scrapeSource env st v)
      have hfold : scrapeDataList env (v :: rest) st =
          scrapeDataList env rest (scrapeSource env st v) := by
        simp [scrapeDataList]
      constructor
      · intro u hu hI
        rw [hfold]
        apply ihr.1 u hu
        exact body_preserve env st u v hgv (hkeys u hu).1 (hkeys v hvmem).1
          (fun ts hts i hi => (hkeys u hu).2 v hvmem ts hts i hi)
          (fun ts hts i hi => (hkeys v hvmem).2 v hvmem ts hts i hi) hI
      · intro w hw
        rw [hfold]
        rcases List.mem_cons.mp hw with h1 | h1
        · subst h1
          exact ihr.1 w hvmem (body_establish env st w hgv (hkeys w hvmem).1
            (fun ts hts i hi => (hkeys w hvmem).2 w hvmem ts hts i hi))
        · exact ihr.2 w h1

theorem fold_noop (env : Env) :
    ∀ l st, (∀ w ∈ l, goodSource env w ∧ InvSrc env st w) →
      scrapeDataList env l st = st := by
  intro l
  induction l with
  | nil => exact fun st _ => rfl
  | cons v rest ih =>
      intro st h
      obtain ⟨hgv, hIv⟩ := h v (by simp)
      have hstep : scrapeSource env st v = st := by
        unfold scrapeSource
        rw [body_noop env st v hgv hIv]
        rfl
      simp only [scrapeDataList, List.foldl_cons] at *
      rw [hstep]
      exact ih st (fun w hw => h w (by simp [hw]))

theorem scrapeSource_map_other (env : Env) (st : EngineSt) (v u : String)
    (hvu : v ≠ u) :
    mapGet (scrapeSource env st v).lastScrapedTweets u = mapGet st.lastScrapedTweets u := by
  cases hP : env.getUserProfile v with
  | error e => simp [scrapeSource, scrapeSourceBody, hP, exAbsorb]
  | ok po =>
  cases po with
  | none => simp [scrapeSource, scrapeSourceBody, hP, exAbsorb]
  | some p =>
  cases hsk : storeKnowledge env st (v ++ "-profile") (formatProfileForRAG p) with
  | error s =>
      have hms : s.lastScrapedTweets = st.lastScrapedTweets := by
        have hframe := storeKnowledge_map_any env st (v ++ "-profile") (formatProfileForRAG p)
        rw [hsk] at hframe
        exact hframe
      simp [scrapeSource, scrapeSourceBody, hP, hsk, exAbsorb, hms]
  | ok st1 =>
  have hm1 : st1.lastScrapedTweets = st.lastScrapedTweets := by
    have hframe := storeKnowledge_map_any env st (v ++ "-profile") (formatProfileForRAG p)
    rw [hsk] at hframe
    exact hframe
  cases hT : env.getUserTweets v with
  | error e => simp [scrapeSource, scrapeSourceBody, hP, hsk, hT, exAbsorb, hm1]
  | ok tso =>
  cases tso with
  | none => simp [scrapeSource, scrapeSourceBody, hP, hsk, hT, exAbsorb, hm1]
  | some ts =>
  cases ts with
  | nil => simp [scrapeSource, scrapeSourceBody, hP, hsk, hT, exAbsorb, hm1]
  | cons y rest =>
  cases hni : newItemsE (jsGet st.lastScrapedTweets v) (y :: rest) with
  | error e => simp [scrapeSource, scrapeSourceBody, hP, hsk, hT, hni, exAbsorb, hm1]
  | ok nt =>
  rcases itemLoop_frame env nt st1 with ⟨hm2, _, _, _, _, _⟩
  cases nt with
  | nil =>
      have hbody : scrapeSource env st v = [].foldl (processTweet env) st1 := by
        simp [scrapeSource, scrapeSourceBody, hP, hsk, hT, hni, exAbsorb, hm1]
      rw [hbody]
      simp [hm1]
  | cons x nrest =>
  cases x with
  | none =>
      have hbody : scrapeSource env st v = (none :: nrest).foldl (processTweet env) st1 := by
        simp [scrapeSource, scrapeSourceBody, hP, hsk, hT, hni, exAbsorb, hm1]
      rw [hbody, hm2, hm1]
  | some t0 =>
      have hbody : scrapeSource env st v = saveState env
          { (some t0 :: nrest).foldl (processTweet env) st1 with
            lastScrapedTweets :=
              mapSet ((some t0 :: nrest).foldl (processTweet env) st1).lastScrapedTweets
                v t0.id } := by
        simp [scrapeSource, scrapeSourceBody, hP, hsk, hT, hni, exAbsorb, hm1]
      rw [hbody]
      rw [(saveState_frame env _).1]
      show mapGet (mapSet _ v t0.id) u = _
      rw [mapGet_set_other _ _ _ _ (Ne.symm hvu), hm2, hm1]

theorem fold_map_frame (env : Env) (l : List String) (st : EngineSt) (u : String)
    (h : u ∉ l) :
    mapGet (scrapeDataList env l st).lastScrapedTweets u = mapGet st.lastScrapedTweets u := by
  induction l generalizing st with
  | nil => rfl
  | cons v rest ih =>
      have hvu : v ≠ u := fun hc => h (by simp [hc])
      have hrest : u ∉ rest := fun hc => h (by simp [hc])
      simp only [scrapeDataList, List.foldl_cons] at *
      rw [ih (scrapeSource env st v) hrest, scrapeSource_map_other env st v u hvu]

theorem nt_head (w : Option String) (ts nt : List (Option Tweet)) (t0 : Tweet)
    (rest2 : List (Option Tweet))
    (hpres : presentIds ts) (hsort : sortedDescIds (tweetIds ts))
    (hni : newItemsE w ts = .ok nt) (hnt : nt = some t0 :: rest2) :
    ts.head? = some (some t0) := by
  subst hnt
  cases ts with
  | nil =>
      rw [newItemsE_nil] at hni
      cases hni
  | cons y rest =>
      rcases hpres y (by simp) with ⟨t0h, i0, hy, hid0, hi0⟩
      subst hy
      cases w with
      | none =>
          simp only [newItemsE] at hni
          injection hni with he
          injection he with he1 he2
          simp only [List.head?_cons]
          rw [he1]
      | some s =>
          by_cases hs : s = ""
          · simp only [newItemsE, if_pos hs] at hni
            injection hni with he
            injection he with he1 he2
            simp only [List.head?_cons]
            rw [he1]
          · simp only [newItemsE, if_neg hs] at hni
            rw [filterNewer_eq_spec s _ hpres hsort, spec_cons] at hni
            by_cases hkp : keepNewer s t0h = true
            · rw [if_pos hkp] at hni
              injection hni with he
              injection he with he1 he2
              simp only [List.head?_cons]
              rw [he1]
            · rw [if_neg hkp] at hni
              injection hni with he
              cases he

/-! ### Concrete fixtures for witnesses and counterexamples -/

/-- A concrete profile used by witness environments. -/
def P0 : Profile :=
  { username := "alice", name := "A", biography := "bio",
    followersCount := 1200, friendsCount := 3, tweetsCount := 4, mediaCount := 5,
    likesCount := 6, listedCount := 7, joined := "2020",
    location := none, website := some "", isVerified := true,
    isBlueVerified := false, isPrivate := false, avatar := "av",
    banner := none, pinnedTweetIds := [] }

/-- A concrete tweet with id `"5"`. -/
def T5 : Tweet :=
  { id := some "5", username := "alice", text := "hi",
    timeParsed := some "2024-01-01", timestamp := 0, isRetweet := false,
    retweetedStatus := none, photos := [], videos := [], urls := [],
    hashtags := [], likes := 1, retweets := 2, replies := 3 }

/-- A concrete tweet without an id (`tweet.id` undefined). -/
def Tnoid : Tweet :=
  { id := none, username := "bob", text := "x",
    timeParsed := some "2024-01-02", timestamp := 0, isRetweet := false,
    retweetedStatus := none, photos := [], videos := [], urls := [],
    hashtags := [], likes := 0, retweets := 0, replies := 0 }

/-- The engine state at construction: nothing loaded, nothing stored. -/
def emptySt : EngineSt :=
  { isRunning := false, lastScrapedTweets := [], store := [], clock := 0, ops := [] }

/-- A well-behaved environment: one target account with one identified tweet. -/
def envC2 : Env :=
  { targets := ["alice"], initFail := false,
    getUserProfile := fun _ => .ok (some P0),
    getUserTweets := fun _ => .ok (some [some T5]),
    createFail := fun _ => false,
    parseState := fun _ => .error (),
    parseTweets := fun _ => .error () }

/-! ### Claims -/

/-- C3: for every key and text, `storeKnowledge` is a complete no-op (no
delete, no create, state unchanged) when a record with the same key already
holds byte-identical text; otherwise, if a record with the key exists, exactly
one delete of the old record precedes exactly one create of the new record,
and — when absent — a single create happens; in both write cases the key maps
to exactly one record afterwards and key-uniqueness of the store is
preserved, so the store never holds two records for the same key. -/
theorem c3_upsert_dedup (env : Env) (st : EngineSt) (key content : String)
    (hc : env.createFail key = false) :
    (∀ r, (storeGet st.store key).head? = some r → r.text = content →
      storeKnowledge env st key content = .ok st) ∧
    (∀ r, (storeGet st.store key).head? = some r → r.text ≠ content →
      ∃ st2, storeKnowledge env st key content = .ok st2 ∧
        st2.ops = st.ops ++ [Op.remove key, Op.create key content] ∧
        storeGet st2.store key = [⟨content, st.clock⟩] ∧
        ((st.store.map Prod.fst).Nodup → (st2.store.map Prod.fst).Nodup)) ∧
    ((storeGet st.store key).head? = none →
      ∃ st2, storeKnowledge env st key content = .ok st2 ∧
        st2.ops = st.ops ++ [Op.create key content] ∧
        storeGet st2.store key = [⟨content, st.clock⟩] ∧
        ((st.store.map Prod.fst).Nodup → (st2.store.map Prod.fst).Nodup)) := by
  refine ⟨fun r hr ht => storeKnowledge_noop env st key content r hr ht, ?_, ?_⟩
  · intro r hr ht
    refine ⟨{ st with
        store := storeAdd (storeRemove st.store key) key ⟨content, st.clock⟩,
        clock := st.clock + 1,
        ops := (st.ops ++ [Op.remove key]) ++ [Op.create key content] }, ?_, by simp, ?_, ?_⟩
    · unfold storeKnowledge createKnowledge
      simp [hr, ht, hc]
    · simp [storeGet_add_self, storeGet_remove_self]
    · intro hnd
      show ((storeAdd (storeRemove st.store key) key ⟨content, st.clock⟩).map Prod.fst).Nodup
      unfold storeAdd
      rw [List.map_append]
      refine List.Nodup.append (((keys_remove_sublist st.store key).nodup) hnd)
        (List.nodup_singleton key) ?_
      intro a ha hb
      simp at hb
      exact not_mem_keys_remove st.store key (hb ▸ ha)
  · intro hr
    have hnil : storeGet st.store key = [] := by
      cases h : storeGet st.store key with
      | nil => rfl
      | cons a l => rw [h] at hr; simp at hr
    refine ⟨{ st with
        store := storeAdd st.store key ⟨content, st.clock⟩,
        clock := st.clock + 1,
        ops := st.ops ++ [Op.create key content] }, ?_, rfl, ?_, ?_⟩
    · unfold storeKnowledge createKnowledge
      simp [hr, hc]
    · simp [storeGet_add_self, hnil]
    · intro hnd
      show ((storeAdd st.store key ⟨content, st.clock⟩).map Prod.fst).Nodup
      unfold storeAdd
      rw [List.map_append]
      refine List.Nodup.append hnd (List.nodup_singleton key) ?_
      intro a ha hb
      simp at hb
      have hall := (storeGet_nil_iff st.store key).mp hnil
      rcases List.mem_map.mp ha with ⟨e, he, hek⟩
      exact hall e he (hek.trans hb)

/-- A state whose store already holds a record under key `"k"`. -/
def stC3 : EngineSt :=
  { isRunning := false, lastScrapedTweets := [],
    store := [("k", ⟨"old", 0⟩)], clock := 3, ops := [] }

/-- Witness for C3: upserting changed text over an existing record performs
exactly one delete followed by one create and leaves a single record. -/
theorem c3_upsert_dedup_witness :
    ∃ st2, storeKnowledge envC2 stC3 "k" "new" = .ok st2 ∧
      st2.ops = stC3.ops ++ [Op.remove "k", Op.create "k" "new"] ∧
      storeGet st2.store "k" = [⟨"new", stC3.clock⟩] ∧
      ((stC3.store.map Prod.fst).Nodup → (st2.store.map Prod.fst).Nodup) :=
  (c3_upsert_dedup envC2 stC3 "k" "new" rfl).2.1 ⟨"old", 0⟩ (by decide) (by decide)

/-- C2: re-running a pass with the watermark table unchanged and unchanged
upstream data (profile fetch succeeds, items form a newest-first identified
sequence, profile-record creation does not fail, and the derived record keys
do not collide) changes nothing at all: the second pass performs zero store
operations — the profile upsert is a no-op — and leaves the watermark table
unchanged; indeed the whole engine state is a fixed point. -/
theorem c2_second_pass_noop (env : Env) (st0 : EngineSt)
    (hgood : ∀ u ∈ env.targets, goodSource env u)
    (hkeys : keysOK env) :
    scrapeData env (scrapeData env st0) = scrapeData env st0 ∧
    (scrapeData env (scrapeData env st0)).ops = (scrapeData env st0).ops ∧
    (scrapeData env (scrapeData env st0)).lastScrapedTweets =
      (scrapeData env st0).lastScrapedTweets := by
  have h1 := fold_establish env hkeys env.targets (fun w hw => ⟨hw, hgood w hw⟩) st0
  have h := fold_noop env env.targets (scrapeData env st0)
    (fun w hw => ⟨hgood w hw, h1.2 w hw⟩)
  exact ⟨h, by rw [show scrapeData env (scrapeData env st0) =
    scrapeDataList env env.targets (scrapeData env st0) from rfl, h],
    by rw [show scrapeData env (scrapeData env st0) =
      scrapeDataList env env.targets (scrapeData env st0) from rfl, h]⟩

/-- Witness for C2: one target with a fetched identified tweet; the second
pass is a fixed point. -/
theorem c2_second_pass_noop_witness :
    scrapeData envC2 (scrapeData envC2 emptySt) = scrapeData envC2 emptySt := by
  refine (c2_second_pass_noop envC2 emptySt ?_ ?_).1
  · intro u hu
    simp only [envC2, List.mem_singleton] at hu
    subst hu
    refine ⟨⟨P0, rfl⟩, rfl, Or.inr ⟨[some T5], rfl, ?_, ?_⟩⟩
    · intro x hx
      simp at hx
      subst hx
      exact ⟨T5, "5", rfl, rfl, by decide⟩
    · rw [show tweetIds [some T5] = ["5"] from rfl]
      exact List.chain'_singleton "5"
  · intro u hu
    simp only [envC2, List.mem_singleton] at hu
    subst hu
    refine ⟨by decide, ?_⟩
    intro v hv ts hts i hi
    simp only [envC2, List.mem_singleton] at hv
    subst hv
    have hts2 : (Except.ok (some [some T5]) : Except Unit (Option (List (Option Tweet)))) =
        .ok (some ts) := hts
    simp at hts2
    subst hts2
    rw [show tweetIds [some T5] = ["5"] from rfl] at hi
    simp at hi
    subst hi
    decide

theorem profile_ne_stateKey (u : String) : u ++ "-profile" ≠ stateKey := by
  intro h
  have hd : u.data ++ "-profile".data = stateKey.data := by
    rw [← String.data_append, h]
  have hrev : "-profile".data.reverse ++ u.data.reverse = stateKey.data.reverse := by
    rw [← List.reverse_append, hd]
  have h1 : ("-profile".data.reverse ++ u.data.reverse).get? 1 = some 'l' := by
    rw [List.get?_append (by decide)]
    decide
  rw [hrev] at h1
  have h2 : stateKey.data.reverse.get? 1 = some 't' := by decide
  rw [h1] at h2
  exact absurd h2 (by decide)

theorem scrapeSource_map_self (env : Env) (st : EngineSt) (u : String) :
    mapGet (scrapeSource env st u).lastScrapedTweets u = mapGet st.lastScrapedTweets u ∨
    (∃ ts nt t0 rest2, env.getUserTweets u = .ok (some ts) ∧
      newItemsE (jsGet st.lastScrapedTweets u) ts = .ok nt ∧
      nt = some t0 :: rest2 ∧
      mapGet (scrapeSource env st u).lastScrapedTweets u = some t0.id) := by
  cases hP : env.getUserProfile u with
  | error e => exact Or.inl (by simp [scrapeSource, scrapeSourceBody, hP, exAbsorb])
  | ok po =>
  cases po with
  | none => exact Or.inl (by simp [scrapeSource, scrapeSourceBody, hP, exAbsorb])
  | some p =>
  cases hsk : storeKnowledge env st (u ++ "-profile") (formatProfileForRAG p) with
  | error s =>
      have hms : s.lastScrapedTweets = st.lastScrapedTweets := by
        have hframe := storeKnowledge_map_any env st (u ++ "-profile") (formatProfileForRAG p)
        rw [hsk] at hframe
        exact hframe
      exact Or.inl (by simp [scrapeSource, scrapeSourceBody, hP, hsk, exAbsorb, hms])
  | ok st1 =>
  have hm1 : st1.lastScrapedTweets = st.lastScrapedTweets := by
    have hframe := storeKnowledge_map_any env st (u ++ "-profile") (formatProfileForRAG p)
    rw [hsk] at hframe
    exact hframe
  cases hT : env.getUserTweets u with
  | error e => exact Or.inl (by simp [scrapeSource, scrapeSourceBody, hP, hsk, hT, exAbsorb, hm1])
  | ok tso =>
  cases tso with
  | none => exact Or.inl (by simp [scrapeSource, scrapeSourceBody, hP, hsk, hT, exAbsorb, hm1])
  | some ts =>
  cases ts with
  | nil => exact Or.inl (by simp [scrapeSource, scrapeSourceBody, hP, hsk, hT, exAbsorb, hm1])
  | cons y rest =>
  cases hni : newItemsE (jsGet st.lastScrapedTweets u) (y :: rest) with
  | error e =>
      exact Or.inl (by simp [scrapeSource, scrapeSourceBody, hP, hsk, hT, hni, exAbsorb, hm1])
  | ok nt =>
  rcases itemLoop_frame env nt st1 with ⟨hm2, _, _, _, _, _⟩
  cases nt with
  | nil =>
      refine Or.inl ?_
      have hbody : scrapeSource env st u = [].foldl (processTweet env) st1 := by
        simp [scrapeSource, scrapeSourceBody, hP, hsk, hT, hni, exAbsorb, hm1]
      rw [hbody]
      simp [hm1]
  | cons x nrest =>
  cases x with
  | none =>
      refine Or.inl ?_
      have hbody : scrapeSource env st u = (none :: nrest).foldl (processTweet env) st1 := by
        simp [scrapeSource, scrapeSourceBody, hP, hsk, hT, hni, exAbsorb, hm1]
      rw [hbody, hm2, hm1]
  | some t0 =>
      refine Or.inr ⟨y :: rest, some t0 :: nrest, t0, nrest, rfl, hni, rfl, ?_⟩
      have hbody : scrapeSource env st u = saveState env
          { (some t0 :: nrest).foldl (processTweet env) st1 with
            lastScrapedTweets :=
              mapSet ((some t0 :: nrest).foldl (processTweet env) st1).lastScrapedTweets
                u t0.id } := by
        simp [scrapeSource, scrapeSourceBody, hP, hsk, hT, hni, exAbsorb, hm1]
      rw [hbody, (saveState_frame env _).1]
      exact mapGet_set_self _ _ _

/-- C1: once a watermark is present for a source, no pass ever assigns it a
value that JS-compares less than the prior value; and — when the source occurs
once among the targets and the environment honors the interface contracts —
the value after the pass is either unchanged or the identifier of the first
(newest) fetched item of that pass. -/
theorem c1_watermark_monotone (env : Env) (st : EngineSt) (u : String)
    (V : Option String) (hm : mapGet st.lastScrapedTweets u = some V) :
    ∃ W, mapGet (scrapeData env st).lastScrapedTweets u = some W ∧
      jsLtOpt W V = false ∧
      (∀ l1 l2, env.targets = l1 ++ u :: l2 → u ∉ l1 → u ∉ l2 →
        goodSource env u →
        (W = V ∨ ∃ ts t0, env.getUserTweets u = .ok (some ts) ∧
          ts.head? = some (some t0) ∧ W = t0.id)) := by
  rcases fold_mono env env.targets st u V hm with ⟨W, hW, hrel⟩
  refine ⟨W, hW, monoRel_not_lt V W hrel, ?_⟩
  intro l1 l2 htg hnotin1 hnotin2 hgu
  have hsplit : scrapeDataList env env.targets st =
      scrapeDataList env l2 (scrapeSource env (scrapeDataList env l1 st) u) := by
    rw [htg]
    simp [scrapeDataList, List.foldl_append]
  have hmMid : mapGet (scrapeDataList env l1 st).lastScrapedTweets u = some V := by
    rw [fold_map_frame env l1 st u hnotin1]
    exact hm
  set stMid := scrapeDataList env l1 st with hstMid
  have hWdet : mapGet (scrapeSource env stMid u).lastScrapedTweets u = some W := by
    have := hW
    rw [hsplit, fold_map_frame env l2 _ u hnotin2] at this
    exact this
  rcases scrapeSource_map_self env stMid u with hsame |
    ⟨ts2, nt, t0, rest2, hT2, hni2, hnt2, hadv⟩
  · rw [hsame, hmMid] at hWdet
    injection hWdet with hWV
    exact Or.inl hWV.symm
  · rcases hgu with ⟨_, _, htw⟩
    rcases htw with hT | ⟨ts, hT, hpres, hsort⟩
    · rw [hT] at hT2
      simp at hT2
    · rw [hT] at hT2
      injection hT2 with hT2e
      injection hT2e with hT2f
      subst hT2f
      have hhead := nt_head (jsGet stMid.lastScrapedTweets u) ts nt t0 rest2 hpres hsort
        hni2 hnt2
      rw [hadv] at hWdet
      injection hWdet with hWV
      exact Or.inr ⟨ts, t0, hT, hhead, hWV.symm⟩

/-- A state holding an existing watermark `"3"` for `"alice"`. -/
def stW : EngineSt :=
  { isRunning := false, lastScrapedTweets := [("alice", some "3")],
    store := [], clock := 0, ops := [] }

/-- Witness for C1: with a set watermark `"3"`, a pass never produces a value
comparing less than it. -/
theorem c1_watermark_monotone_witness :
    ∃ W, mapGet (scrapeData envC2 stW).lastScrapedTweets "alice" = some W ∧
      jsLtOpt W (some "3") = false := by
  rcases c1_watermark_monotone envC2 stW "alice" (some "3") (by decide) with ⟨W, h1, h2, _⟩
  exact ⟨W, h1, h2⟩

/-- C6: only the startup-fatal client-init failure crosses the engine boundary
(`start` signals an error exactly when it was not running and `client.init`
failed); `scrapeData` processes the sources around any source `u` regardless
of what happens inside `u`'s block, and every outcome of a source body —
normal or thrown — is absorbed by the source-level catch, so no error
propagates out of `scrapeData`. -/
theorem c6_error_containment (env : Env) (st : EngineSt) :
    ((start env st).2 = true ↔ (st.isRunning = false ∧ env.initFail = true)) ∧
    (∀ l1 u l2, env.targets = l1 ++ u :: l2 →
      scrapeData env st = scrapeDataList env l2
        (scrapeSource env (scrapeDataList env l1 st) u)) ∧
    (∀ u s, (∃ s2, scrapeSourceBody env s u = .ok s2 ∧ scrapeSource env s u = s2) ∨
      (∃ s2, scrapeSourceBody env s u = .error s2 ∧ scrapeSource env s u = s2)) := by
  refine ⟨?_, ?_, ?_⟩
  · cases h1 : st.isRunning with
    | true => simp [start, h1]
    | false =>
        cases h2 : env.initFail with
        | true => simp [start, h1, h2]
        | false => simp [start, h1, h2]
  · intro l1 u l2 htg
    show scrapeDataList env env.targets st = _
    rw [htg]
    simp [scrapeDataList, List.foldl_append]
  · intro u s
    cases hb : scrapeSourceBody env s u with
    | ok s2 => exact Or.inl ⟨s2, rfl, by simp [scrapeSource, hb, exAbsorb]⟩
    | error s2 => exact Or.inr ⟨s2, rfl, by simp [scrapeSource, hb, exAbsorb]⟩

/-- Witness for C6: a concrete pass decomposed around its only source. -/
theorem c6_error_containment_witness :
    scrapeData envC2 emptySt = scrapeDataList envC2 []
      (scrapeSource envC2 (scrapeDataList envC2 [] emptySt) "alice") :=
  (c6_error_containment envC2 emptySt).2.1 [] "alice" [] rfl

/-- A state in which the engine is already running. -/
def stRunning : EngineSt :=
  { isRunning := true, lastScrapedTweets := [], store := [], clock := 0, ops := [] }

/-- An environment whose client-session init would fail if attempted. -/
def envInitFail : Env :=
  { targets := ["alice"], initFail := true,
    getUserProfile := fun _ => .ok none,
    getUserTweets := fun _ => .ok none,
    createFail := fun _ => false,
    parseState := fun _ => .error (),
    parseTweets := fun _ => .error () }

/-- C7 counterexample: calling `start` while already Running returns normally
(flag `false`: no error is signaled to the caller, contradicting the claim's
"signals failure to the caller"); the state — including the effect trace — is
unchanged, and the client is not re-initialized even though this environment's
init would fail. Only a warning is logged. -/
theorem c7_counterexample : start envInitFail stRunning = (stRunning, false) := rfl

/-- C7 (amended): calling `start` while the engine is already Running returns
immediately with no state change and no error signaled to the caller (a
warning is merely logged); since the returned state equals the input state,
the client is not re-initialized, no state is reloaded, and no additional
passes are scheduled. -/
theorem c7_amended_start_running (env : Env) (st : EngineSt)
    (h : st.isRunning = true) : start env st = (st, false) := by
  simp [start, h]

/-- Witness for C7 (amended). -/
theorem c7_amended_start_running_witness : start envC2 stRunning = (stRunning, false) :=
  c7_amended_start_running envC2 stRunning rfl

/-! ### Seeding (`initializeLastScrapedTweets`) characterization -/

theorem seedSource_eq (env : Env) (st : EngineSt) (u : String) :
    seedSource env st u = match seedVal env st.store u with
      | some idv => { st with lastScrapedTweets := mapSet st.lastScrapedTweets u idv }
      | none => st := by
  cases hh : (storeGet st.store (u ++ "-tweets")).head? with
  | none => simp [seedSource, seedVal, hh]
  | some r =>
      cases hp : env.parseTweets r.text with
      | error e => simp [seedSource, seedVal, hh, hp]
      | ok l =>
          cases l with
          | nil => simp [seedSource, seedVal, hh, hp]
          | cons x xs =>
              cases x with
              | none => simp [seedSource, seedVal, hh, hp]
              | some idv => simp [seedSource, seedVal, hh, hp]

theorem seedSource_frames (env : Env) (st : EngineSt) (u : String) :
    (seedSource env st u).store = st.store ∧
    (seedSource env st u).ops = st.ops ∧
    (seedSource env st u).clock = st.clock ∧
    (seedSource env st u).isRunning = st.isRunning ∧
    (∀ w, w ≠ u → mapGet (seedSource env st u).lastScrapedTweets w =
      mapGet st.lastScrapedTweets w) ∧
    (∀ w, w ≠ u → mapHas (seedSource env st u).lastScrapedTweets w =
      mapHas st.lastScrapedTweets w) := by
  rw [seedSource_eq]
  cases hv : seedVal env st.store u with
  | none => exact ⟨rfl, rfl, rfl, rfl, fun _ _ => rfl, fun _ _ => rfl⟩
  | some idv =>
      refine ⟨rfl, rfl, rfl, rfl, ?_, ?_⟩
      · intro w hw
        exact mapGet_set_other _ _ _ _ hw
      · intro w hw
        exact mapHas_set_other _ _ _ _ hw

theorem init_fold_char (env : Env) (l : List String) :
    ∀ st : EngineSt,
      ((l.foldl (fun s u => if mapHas s.lastScrapedTweets u then s
          else seedSource env s u) st).store = st.store ∧
        (l.foldl (fun s u => if mapHas s.lastScrapedTweets u then s
          else seedSource env s u) st).ops = st.ops ∧
        (l.foldl (fun s u => if mapHas s.lastScrapedTweets u then s
          else seedSource env s u) st).clock = st.clock ∧
        (l.foldl (fun s u => if mapHas s.lastScrapedTweets u then s
          else seedSource env s u) st).isRunning = st.isRunning) ∧
      ∀ v, mapGet (l.foldl (fun s u => if mapHas s.lastScrapedTweets u then s
          else seedSource env s u) st).lastScrapedTweets v =
        if v ∈ l ∧ mapHas st.lastScrapedTweets v = false
        then seedVal env st.store v
        else mapGet st.lastScrapedTweets v := by
  induction l with
  | nil =>
      intro st
      refine ⟨⟨rfl, rfl, rfl, rfl⟩, ?_⟩
      intro v
      simp
  | cons u rest ih =>
      intro st
      rcases seedSource_frames env st u with ⟨fS, fO, fC, fR, fMapO, fHasO⟩
      have hstep : ∀ s2 : EngineSt, (u :: rest).foldl (fun s w =>
          if mapHas s.lastScrapedTweets w then s else seedSource env s w) st =
          rest.foldl (fun s w => if mapHas s.lastScrapedTweets w then s
            else seedSource env s w)
            (if mapHas st.lastScrapedTweets u then st else seedSource env st u) := by
        intro _
        simp [List.foldl_cons]
      rw [hstep emptySt]
      cases hhas : mapHas st.lastScrapedTweets u with
      | true =>
          rw [if_pos rfl]
          rcases ih st with ⟨hframes, hchar⟩
          refine ⟨hframes, ?_⟩
          intro v
          rw [hchar v]
          by_cases hvu : v = u
          · subst hvu
            simp [hhas]
          · by_cases hvm : v ∈ rest
            · simp [hvm, hvu]
            · simp [hvm, hvu]
      | false =>
          rw [if_neg (by simp [hhas])]
          rcases ih (seedSource env st u) with ⟨⟨g1, g2, g3, g4⟩, hchar⟩
          refine ⟨⟨g1.trans fS, g2.trans fO, g3.trans fC, g4.trans fR⟩, ?_⟩
          intro v
          rw [hchar v]
          by_cases hvu : v = u
          · subst hvu
            have hmS : (seedSource env st v).store = st.store := fS
            cases hv : seedVal env st.store v with
            | none =>
                have hmapv : (seedSource env st v).lastScrapedTweets =
                    st.lastScrapedTweets := by
                  rw [seedSource_eq, hv]
                have hmg : mapGet st.lastScrapedTweets v = none :=
                  mapGet_none_of_not_has _ _ hhas
                rw [hmS, hmapv]
                by_cases hvm : v ∈ rest
                · simp [hvm, hhas, hv, hmg]
                · simp [hvm, hhas, hv, hmg]
            | some idv =>
                have hmapv : mapGet (seedSource env st v).lastScrapedTweets v =
                    some idv := by
                  rw [seedSource_eq, hv]
                  exact mapGet_set_self _ _ _
                have hhasv : mapHas (seedSource env st v).lastScrapedTweets v = true := by
                  rw [seedSource_eq, hv]
                  exact mapHas_set_self _ _ _
                rw [hmS, hhasv, hmapv]
                simp [hhas, hv]
          · have hmape : mapGet (seedSource env st u).lastScrapedTweets v =
                mapGet st.lastScrapedTweets v := fMapO v hvu
            have hhase : mapHas (seedSource env st u).lastScrapedTweets v =
                mapHas st.lastScrapedTweets v := fHasO v hvu
            rw [fS, hhase, hmape]
            by_cases hvm : v ∈ rest
            · simp [hvm, hvu]
            · simp [hvm, hvu]

/-- C8: `initializeLastScrapedTweets` touches nothing but the watermark map;
a source whose watermark is already present is left untouched, a source
outside the configured targets is untouched, and every configured source with
an unset watermark independently receives exactly the seed value read from
the store — the id of the first (newest) stored tweet when a stored
collection exists, parses, and has an identified first element — while any
failure of this inspection (no record, parse error, empty array, null first
element) skips only that source, leaving its watermark unset. -/
theorem c8_seeding (env : Env) (st : EngineSt) :
    ((initializeLastScrapedTweets env st).store = st.store ∧
      (initializeLastScrapedTweets env st).ops = st.ops ∧
      (initializeLastScrapedTweets env st).clock = st.clock ∧
      (initializeLastScrapedTweets env st).isRunning = st.isRunning) ∧
    (∀ u, mapHas st.lastScrapedTweets u = true →
      mapGet (initializeLastScrapedTweets env st).lastScrapedTweets u =
        mapGet st.lastScrapedTweets u) ∧
    (∀ u, u ∉ env.targets →
      mapGet (initializeLastScrapedTweets env st).lastScrapedTweets u =
        mapGet st.lastScrapedTweets u) ∧
    (∀ u ∈ env.targets, mapHas st.lastScrapedTweets u = false →
      mapGet (initializeLastScrapedTweets env st).lastScrapedTweets u =
        seedVal env st.store u) ∧
    (∀ u ∈ env.targets, mapHas st.lastScrapedTweets u = false →
      ∀ r idv rest, (storeGet st.store (u ++ "-tweets")).head? = some r →
        env.parseTweets r.text = .ok (some idv :: rest) →
        mapGet (initializeLastScrapedTweets env st).lastScrapedTweets u = some idv) := by
  rcases init_fold_char env env.targets st with ⟨hframes, hchar⟩
  refine ⟨hframes, ?_, ?_, ?_, ?_⟩
  · intro u hu
    rw [show initializeLastScrapedTweets env st = env.targets.foldl
      (fun s w => if mapHas s.lastScrapedTweets w then s else seedSource env s w) st
      from rfl, hchar u]
    simp [hu]
  · intro u hu
    rw [show initializeLastScrapedTweets env st = env.targets.foldl
      (fun s w => if mapHas s.lastScrapedTweets w then s else seedSource env s w) st
      from rfl, hchar u]
    simp [hu]
  · intro u hu hhas
    rw [show initializeLastScrapedTweets env st = env.targets.foldl
      (fun s w => if mapHas s.lastScrapedTweets w then s else seedSource env s w) st
      from rfl, hchar u]
    simp [hu, hhas]
  · intro u hu hhas r idv rest hr hp
    rw [show initializeLastScrapedTweets env st = env.targets.foldl
      (fun s w => if mapHas s.lastScrapedTweets w then s else seedSource env s w) st
      from rfl, hchar u]
    simp only [hu, hhas, and_self, if_pos, true_and]
    simp [seedVal, hr, hp]

/-- Environment for the seeding witness: a stored tweet collection for `"bob"`
parses to one tweet with id `"9"`. -/
def envC8 : Env :=
  { targets := ["bob"], initFail := false,
    getUserProfile := fun _ => .ok none,
    getUserTweets := fun _ => .ok none,
    createFail := fun _ => false,
    parseState := fun _ => .error (),
    parseTweets := fun _ => .ok [some (some "9")] }

/-- State for the seeding witness: a stored collection, no watermark. -/
def stC8 : EngineSt :=
  { isRunning := false, lastScrapedTweets := [],
    store := [("bob-tweets", ⟨"stored", 0⟩)], clock := 0, ops := [] }

/-- Witness for C8: a source with stored tweets and no watermark seeds from
the first stored tweet's id. -/
theorem c8_seeding_witness :
    mapGet (initializeLastScrapedTweets envC8 stC8).lastScrapedTweets "bob" =
      some (some "9") :=
  (c8_seeding envC8 stC8).2.2.2.2 "bob" (by decide) (by decide)
    ⟨"stored", 0⟩ (some "9") [] (by decide) rfl

/-! ### Formatter lemmas -/

theorem jsOrStr_falsy (a : Option String) (b : String) (h : jsTruthy a = false) :
    jsOrStr a b = b := by
  cases a with
  | none => rfl
  | some s =>
      have hs : s = "" := by simpa [jsTruthy] using h
      simp [jsOrStr, hs]

theorem mem_jsFilterBoolean (l : List (Option String)) (s : String) (hs : s ≠ "")
    (h : some s ∈ l) : s ∈ jsFilterBoolean l := by
  simp only [jsFilterBoolean, List.mem_filterMap]
  exact ⟨some s, h, by simp [hs]⟩

/-- C9: the formatters render absent optional profile fields with the explicit
placeholder `Not specified`; the rendered profile text is exactly the
newline-join of the truthy sections; the item formatter appends the media,
link and hashtag sections exactly when the corresponding list is non-empty
(none of them when all are empty); and both formatters are pure functions:
equal inputs give identical output. -/
theorem c9_formatters (p : Profile) (t : Tweet) :
    (jsTruthy p.location = false →
      "- Location: Not specified" ∈ jsFilterBoolean (profileSections p)) ∧
    (jsTruthy p.website = false →
      "- Website: Not specified" ∈ jsFilterBoolean (profileSections p)) ∧
    (formatProfileForRAG p = String.intercalate "\n" (jsFilterBoolean (profileSections p))) ∧
    (t.photos = [] ∧ t.videos = [] ∧ t.urls = [] ∧ t.hashtags = [] →
      formatTweetForRAG t = tweetBaseContent t) ∧
    (t.photos ≠ [] → ∃ rest, formatTweetForRAG t =
      tweetBaseContent t ++ ("\nPhotos: " ++ String.intercalate ", " t.photos) ++ rest) ∧
    (t.videos ≠ [] → ∃ pre rest, formatTweetForRAG t =
      pre ++ ("\nVideos: " ++ String.intercalate ", " t.videos) ++ rest) ∧
    (t.urls ≠ [] → ∃ pre rest, formatTweetForRAG t =
      pre ++ ("\nLinks: " ++ String.intercalate ", " t.urls) ++ rest) ∧
    (t.hashtags ≠ [] → ∃ pre, formatTweetForRAG t =
      pre ++ ("\nHashtags: " ++ String.intercalate " " t.hashtags)) ∧
    (∀ p2 t2, p = p2 → t = t2 →
      formatProfileForRAG p = formatProfileForRAG p2 ∧
      formatTweetForRAG t = formatTweetForRAG t2) := by
  refine ⟨?_, ?_, formatProfileForRAG_def p, ?_, ?_, ?_, ?_, ?_, ?_⟩
  · intro h
    have he : jsOrStr p.location "Not specified" = "Not specified" :=
      jsOrStr_falsy _ _ h
    have hmem : some ("- Location: " ++ jsOrStr p.location "Not specified") ∈
        profileSections p := by
      simp [profileSections]
    rw [he] at hmem
    rw [show ("- Location: " ++ "Not specified" : String) = "- Location: Not specified"
      from rfl] at hmem
    exact mem_jsFilterBoolean _ _ (by decide) hmem
  · intro h
    have he : jsOrStr p.website "Not specified" = "Not specified" :=
      jsOrStr_falsy _ _ h
    have hmem : some ("- Website: " ++ jsOrStr p.website "Not specified") ∈
        profileSections p := by
      simp [profileSections]
    rw [he] at hmem
    rw [show ("- Website: " ++ "Not specified" : String) = "- Website: Not specified"
      from rfl] at hmem
    exact mem_jsFilterBoolean _ _ (by decide) hmem
  · rintro ⟨h1, h2, h3, h4⟩
    rw [formatTweetForRAG_def]
    simp [photosSection, videosSection, urlsSection, hashtagsSection, h1, h2, h3, h4]
  · intro h
    refine ⟨videosSection t ++ urlsSection t ++ hashtagsSection t, ?_⟩
    rw [formatTweetForRAG_def]
    simp [photosSection, h, String.append_assoc]
  · intro h
    refine ⟨tweetBaseContent t ++ photosSection t, urlsSection t ++ hashtagsSection t, ?_⟩
    rw [formatTweetForRAG_def]
    simp [videosSection, h, String.append_assoc]
  · intro h
    refine ⟨tweetBaseContent t ++ photosSection t ++ videosSection t, hashtagsSection t, ?_⟩
    rw [formatTweetForRAG_def]
    simp [urlsSection, h, String.append_assoc]
  · intro h
    refine ⟨tweetBaseContent t ++ photosSection t ++ videosSection t ++ urlsSection t, ?_⟩
    rw [formatTweetForRAG_def]
    simp [hashtagsSection, h, String.append_assoc]
  · intro p2 t2 h1 h2
    subst h1
    subst h2
    exact ⟨rfl, rfl⟩

/-- A tweet with attached media and hashtags for the formatter witness. -/
def THT : Tweet :=
  { id := some "7", username := "alice", text := "hey",
    timeParsed := some "2024-01-03", timestamp := 0, isRetweet := false,
    retweetedStatus := none, photos := ["u1"], videos := [], urls := [],
    hashtags := ["#a", "#b"], likes := 0, retweets := 0, replies := 0 }

/-- Witness for C9: absent location renders the placeholder; non-empty
hashtags produce the appended hashtag section. -/
theorem c9_formatters_witness :
    "- Location: Not specified" ∈ jsFilterBoolean (profileSections P0) ∧
    ∃ pre, formatTweetForRAG THT =
      pre ++ ("\nHashtags: " ++ String.intercalate " " THT.hashtags) :=
  ⟨(c9_formatters P0 THT).1 rfl, (c9_formatters P0 THT).2.2.2.2.2.2.2.1 (by decide)⟩

/-! ### C5: newItems is a full filter, not a maximal prefix -/

/-- Tweet with id `"c"`. -/
def Tc : Tweet := { T5 with id := some "c" }

/-- Tweet with id `"a"`. -/
def Ta : Tweet := { T5 with id := some "a" }

/-- Tweet with id `"d"`. -/
def Td : Tweet := { T5 with id := some "d" }

/-- C5 counterexample: with watermark `"b"` and the unsorted fetched sequence
`[c, a, d]`, the code's `newTweets` keeps the item with id `"d"` even though
it follows the item with id `"a" ≤ "b"`; the spec's maximal prefix stops at
`[c]`. The claim's "no item after the first item with id <= W is included" is
false: the code computes a full filter over the whole sequence. -/
theorem c5_counterexample :
    newItemsE (some "b") [some Tc, some Ta, some Td] = .ok [some Tc, some Td] ∧
    specMaxPrefixGt "b" [some Tc, some Ta, some Td] = [some Tc] := by
  constructor
  · simp [newItemsE, filterNewer, keepNewer, Tc, Ta, Td, T5]
    decide
  · simp [specMaxPrefixGt, List.takeWhile_cons, keepNewer, Tc, Ta, Td, T5]
    decide

theorem filterNewer_complete (w : String) (ts r : List (Option Tweet))
    (h : filterNewer w ts = .ok r) :
    ∀ t, some t ∈ ts → keepNewer w t = true → some t ∈ r := by
  induction ts generalizing r with
  | nil =>
      intro t ht
      simp at ht
  | cons y rest ih =>
      cases y with
      | none => simp [filterNewer] at h
      | some t1 =>
          rw [filterNewer] at h
          cases hr : filterNewer w rest with
          | error e => rw [hr] at h; simp at h
          | ok r0 =>
              rw [hr] at h
              simp at h
              intro t ht hk
              rcases List.mem_cons.mp ht with h1 | h1
              · injection h1 with h1e
                subst h1e
                rw [if_pos hk] at h
                subst h
                simp
              · by_cases hk1 : keepNewer w t1 = true
                · rw [if_pos hk1] at h
                  subst h
                  exact List.mem_cons_of_mem _ (ih r0 hr t h1 hk)
                · rw [if_neg hk1] at h
                  subst h
                  exact ih r0 hr t h1 hk

/-- C5 (amended): for a truthy watermark `w`, `newTweets` is the filter of
ALL fetched items whose identifier compares greater than `w`, in fetch order:
every kept item has id `> w`, and every fetched item with id `> w` is kept —
including items after the first non-newer item. The maximal-prefix reading is
correct exactly when the fetched sequence is sorted newest-first, and with no
watermark the whole fetched sequence is taken. -/
theorem c5_amended_full_filter (w : String) (ts : List (Option Tweet))
    (hw : w ≠ "") (hp : presentIds ts) :
    (∃ r, newItemsE (some w) ts = .ok r ∧
      (∀ x ∈ r, x ∈ ts ∧ ∃ t i, x = some t ∧ t.id = some i ∧ w < i) ∧
      (∀ t, some t ∈ ts → keepNewer w t = true → some t ∈ r) ∧
      (sortedDescIds (tweetIds ts) → r = specMaxPrefixGt w ts)) ∧
    newItemsE none ts = .ok ts := by
  refine ⟨?_, rfl⟩
  rcases filterNewer_total w ts (fun x hx => by
    rcases hp x hx with ⟨t, i, h1, _⟩
    exact ⟨t, h1⟩) with ⟨r, hr⟩
  refine ⟨r, by simp [newItemsE, hw, hr], filterNewer_mem w ts r hr,
    filterNewer_complete w ts r hr, ?_⟩
  intro hs
  have hspec := filterNewer_eq_spec w ts hp hs
  rw [hr] at hspec
  exact Except.ok.inj hspec

/-- Witness for C5 (amended), on the unsorted fixture of the counterexample. -/
theorem c5_amended_full_filter_witness :
    ∃ r, newItemsE (some "b") [some Tc, some Ta, some Td] = .ok r ∧
      (∀ x ∈ r, x ∈ [some Tc, some Ta, some Td] ∧
        ∃ t i, x = some t ∧ t.id = some i ∧ "b" < i) ∧
      (∀ t, some t ∈ [some Tc, some Ta, some Td] →
        keepNewer "b" t = true → some t ∈ r) ∧
      (sortedDescIds (tweetIds [some Tc, some Ta, some Td]) →
        r = specMaxPrefixGt "b" [some Tc, some Ta, some Td]) :=
  (c5_amended_full_filter "b" [some Tc, some Ta, some Td] (by decide) (by
    intro x hx
    simp at hx
    rcases hx with h | h | h
    · subst h; exact ⟨Tc, "c", rfl, rfl, by decide⟩
    · subst h; exact ⟨Ta, "a", rfl, rfl, by decide⟩
    · subst h; exact ⟨Td, "d", rfl, rfl, by decide⟩)).1

/-! ### C4: advance and persist do not wait for successful item processing -/

/-- Environment where storing the newest item's record fails (`createKnowledge`
throws for key `tweet-5`), while everything else succeeds. -/
def envC4 : Env :=
  { targets := ["alice"], initFail := false,
    getUserProfile := fun _ => .ok (some P0),
    getUserTweets := fun _ => .ok (some [some T5]),
    createFail := fun k => k == "tweet-5",
    parseState := fun _ => .error (),
    parseTweets := fun _ => .error () }

/-- C4 counterexample: processing of the newest fetched item FAILS (its
record is never created — no `create "tweet-5"` operation appears in the
trace, the per-item `catch` absorbs the error), yet the watermark is still
advanced to `"5"` and the engine state is still persisted under the state
key. The advance is not conditional on successful processing. -/
theorem c4_counterexample :
    mapGet (scrapeData envC4 emptySt).lastScrapedTweets "alice" =
      some (some "5") ∧
    ((scrapeData envC4 emptySt).ops.all (fun o =>
      match o with
      | Op.create k _ => !(k == "tweet-5")
      | _ => true)) = true ∧
    (storeGet (scrapeData envC4 emptySt).store stateKey).head?.isSome = true := by
  exact ⟨by decide, by decide, by decide⟩

/-- C4 (amended): for every source meeting the interface contracts, if
`newItems` is empty the watermark is untouched; if `newItems` is non-empty
the watermark is advanced to the identifier of the first element of
`newItems` after the item loop — regardless of whether the individual item
upserts succeeded — and the serialized engine state reflecting exactly that
advance is persisted under the state key within the source's own block;
`scrapeData` processes sources sequentially, so this happens before any
later source is handled, not batched at the end of the pass. -/
theorem c4_amended_advance_persist (env : Env) (st : EngineSt) (u : String)
    (p : Profile) (ts : List (Option Tweet))
    (hP : env.getUserProfile u = .ok (some p))
    (hPC : env.createFail (u ++ "-profile") = false)
    (hSC : env.createFail stateKey = false)
    (hT : env.getUserTweets u = .ok (some ts))
    (hpres : presentIds ts)
    (hk2 : ∀ i ∈ tweetIds ts, "tweet-" ++ i ≠ u ++ "-profile") :
    ∃ nt, newItemsE (jsGet st.lastScrapedTweets u) ts = .ok nt ∧
      (nt = [] → mapGet (scrapeSource env st u).lastScrapedTweets u =
        mapGet st.lastScrapedTweets u) ∧
      (∀ t0 rest, nt = some t0 :: rest →
        mapGet (scrapeSource env st u).lastScrapedTweets u = some t0.id ∧
        ∃ rec, (storeGet (scrapeSource env st u).store stateKey).head? = some rec ∧
          ∃ tc, rec.text = serializeState (mapSet st.lastScrapedTweets u t0.id) tc) ∧
      (∀ l, scrapeDataList env (u :: l) st =
        scrapeDataList env l (scrapeSource env st u)) := by
  rcases body_main env st u p ts hP hPC hT hpres (profile_ne_stateKey u) hk2 with
    ⟨nt, stE, hni, hbody, _, _, _, _, hcase⟩
  have hsrc : scrapeSource env st u = stE := by
    simp only [scrapeSource, hbody, exAbsorb]
  refine ⟨nt, hni, ?_, ?_, fun l => rfl⟩
  · intro hnil
    rcases hcase with ⟨_, hmapU, _, _⟩ | ⟨t0, rest2, hcons2, _⟩
    · rw [hsrc]
      exact hmapU
    · rw [hnil] at hcons2
      exact absurd hcons2.symm (List.cons_ne_nil _ _)
  · intro t0 rest hcons
    rcases hcase with ⟨hnil, _, _, _⟩ | ⟨t0b, rest2, hcons2, hadv, hpersist, _⟩
    · rw [hcons] at hnil
      exact absurd hnil (List.cons_ne_nil _ _)
    · rw [hcons] at hcons2
      injection hcons2 with h1 h2
      injection h1 with h1e
      subst h1e
      constructor
      · rw [hsrc]
        exact hadv
      · rw [hsrc]
        exact hpersist hSC
/-- Witness for C4 (amended): on the well-behaved fixture the watermark for
`"alice"` ends at the first new item's identifier `"5"`. -/
theorem c4_amended_advance_persist_witness :
    mapGet (scrapeSource envC2 emptySt "alice").lastScrapedTweets "alice" =
      some (some "5") := by
  rcases c4_amended_advance_persist envC2 emptySt "alice" P0 [some T5]
      rfl rfl rfl rfl
      (by intro x hx
          simp at hx
          subst hx
          exact ⟨T5, "5", rfl, rfl, by decide⟩)
      (by intro i hi
          rw [show tweetIds [some T5] = ["5"] from rfl] at hi
          simp at hi
          subst hi
          decide) with ⟨nt, hni, hnil, hcons, hfold⟩
  have h0 : newItemsE (jsGet emptySt.lastScrapedTweets "alice") [some T5] =
      .ok [some T5] := rfl
  rw [h0] at hni
  have hnt : nt = [some T5] := (Except.ok.inj hni).symm
  exact (hcons T5 [] hnt).1

/-! ### C10: advance on a skipped first item -/

/-- Environment whose fetched sequence for `"bob"` is non-empty but its first
(and only) item is absent (`null`). -/
def envC10 : Env :=
  { targets := ["bob"], initFail := false,
    getUserProfile := fun _ => .ok (some P0),
    getUserTweets := fun _ => .ok (some [none]),
    createFail := fun _ => false,
    parseState := fun _ => .error (),
    parseTweets := fun _ => .error () }

/-- Environment whose fetched sequence for `"bob"` starts with a present item
that has no identifier, followed by an ordinary identified item. -/
def envC10b : Env :=
  { targets := ["bob"], initFail := false,
    getUserProfile := fun _ => .ok (some P0),
    getUserTweets := fun _ => .ok (some [some Tnoid, some T5]),
    createFail := fun _ => false,
    parseState := fun _ => .error (),
    parseTweets := fun _ => .error () }

/-- C10 counterexample: when the first (newest) item is ABSENT, the pass does
NOT take the advance branch: reading `.id` off the absent item throws, the
source-level catch absorbs the error, the watermark for the source stays
unset and no state record is ever persisted. The claim's "absent ... first
item" disjunct is false; only the lacks-an-identifier case advances. -/
theorem c10_counterexample :
    mapGet (scrapeData envC10 emptySt).lastScrapedTweets "bob" = none ∧
    storeGet (scrapeData envC10 emptySt).store stateKey = [] := by
  exact ⟨by decide, by decide⟩

/-- C10 (amended): if a source has no watermark and the fetched sequence is
non-empty with a PRESENT first (newest) item that LACKS an identifier, the
pass still takes the advance branch: the first item is silently skipped by
the loop, the watermark entry for the source is set to the absent identifier
(`undefined`), and the engine state reflecting that entry is persisted; every
record created in the source's block is the profile upsert, the state record,
or a record keyed by the identifier of a LATER fetched item — never one for
the skipped first item, which has no identifier to key it. (When the first
item is itself absent the advance throws and is caught, leaving the watermark
unset: see the counterexample.) -/
theorem c10_amended_undefined_id (env : Env) (st : EngineSt) (u : String)
    (p : Profile) (t : Tweet) (rest : List (Option Tweet))
    (hm : mapGet st.lastScrapedTweets u = none)
    (hP : env.getUserProfile u = .ok (some p))
    (hPC : env.createFail (u ++ "-profile") = false)
    (hSC : env.createFail stateKey = false)
    (hT : env.getUserTweets u = .ok (some (some t :: rest)))
    (hid : t.id = none) :
    mapGet (scrapeSource env st u).lastScrapedTweets u = some none ∧
    (∃ rec, (storeGet (scrapeSource env st u).store stateKey).head? = some rec ∧
      ∃ tc, rec.text = serializeState (mapSet st.lastScrapedTweets u none) tc) ∧
    (∃ l, (scrapeSource env st u).ops = st.ops ++ l ∧
      ∀ k c, Op.create k c ∈ l →
        k = u ++ "-profile" ∨ k = stateKey ∨
          ∃ x ∈ rest, ∃ t2 i, x = some t2 ∧ t2.id = some i ∧ k = "tweet-" ++ i) := by
  rcases profileStep env st u p hPC with
    ⟨st1, hsk, hmap1, hrun1, hprof1, hother1, l1, hops1, hcr1⟩
  have hjs : jsGet st1.lastScrapedTweets u = none := by
    simp [jsGet_eq, hmap1, hm]
  have hni : newItemsE (jsGet st1.lastScrapedTweets u) (some t :: rest) =
      .ok (some t :: rest) := by
    simp [hjs, newItemsE]
  obtain ⟨st2, hst2⟩ :
      ∃ st2, List.foldl (processTweet env) st1 (some t :: rest) = st2 := ⟨_, rfl⟩
  rcases itemLoop_frame env (some t :: rest) st1 with ⟨q1, q2, q3, l2, hops2, hcr2⟩
  rw [hst2] at q1 hops2
  obtain ⟨st3, hst3map, hst3ops, hbody⟩ :
      ∃ st3 : EngineSt,
        st3.lastScrapedTweets = mapSet st2.lastScrapedTweets u none ∧
        st3.ops = st2.ops ∧
        scrapeSource env st u = saveState env st3 := by
    refine ⟨{ st2 with lastScrapedTweets := mapSet st2.lastScrapedTweets u none },
      rfl, rfl, ?_⟩
    simp only [scrapeSource, scrapeSourceBody, hP, hsk, hT, hni, hid, hst2,
      exAbsorb, List.isEmpty_cons]
    simp
  rcases saveState_frame env st3 with ⟨f1, _, _, lf, hlf, hcf⟩
  refine ⟨?_, ?_, ?_⟩
  · rw [hbody, f1, hst3map]
    exact mapGet_set_self _ _ _
  · rcases saveState_persists env st3 hSC with ⟨rec, hrec, htext⟩
    rw [hst3map, q1, hmap1] at htext
    exact ⟨rec, by rw [hbody]; exact hrec, st3.clock, htext⟩
  · refine ⟨l1 ++ l2 ++ lf, ?_, ?_⟩
    · rw [hbody, hlf, hst3ops, hops2, hops1]
      simp [List.append_assoc]
    · intro k c hk
      simp only [List.append_assoc, List.mem_append] at hk
      rcases hk with h | h | h
      · exact Or.inl (hcr1 k c h)
      · rcases hcr2 k c h with ⟨x, hx, t2, i, hxt, hti, hk2⟩
        rcases List.mem_cons.mp hx with hx1 | hx1
        · rw [hx1] at hxt
          injection hxt with he
          rw [← he, hid] at hti
          exact Option.noConfusion hti
        · exact Or.inr (Or.inr ⟨x, hx1, t2, i, hxt, hti, hk2⟩)
      · exact Or.inr (Or.inl (hcf k c h))

/-- Witness for C10 (amended): a two-item fetch whose first item is present
but has no id and whose second is an ordinary identified item; the watermark
for `"bob"` still ends set-to-`undefined`. -/
theorem c10_amended_undefined_id_witness :
    mapGet (scrapeSource envC10b emptySt "bob").lastScrapedTweets "bob" =
      some none :=
  (c10_amended_undefined_id envC10b emptySt "bob" P0 Tnoid [some T5] rfl rfl
    rfl rfl rfl rfl).1
